import Mathlib

/-!
# Verification of the LPG-planner station ingestion engine

A shallow embedding of `src/scripts/add-to-database.py` (function
`update_database`, together with the record-normalisation code inside its
loop) and of the persistent `Stations` table created by
`src/scripts/create-database.py`.

Modelling conventions:
* SQLite rows of the `Stations` table become a `List Station`; a freshly
  inserted row is appended at the end (rowid order), and the
  `AUTOINCREMENT` id of a new row is one more than the largest id present.
* Python `float` values (coordinates, prices) are modelled as exact
  rationals `ℚ`; `round(x, 6)` becomes round-half-to-even at six decimal
  digits on `ℚ`.
* Python `str` is a sequence of code points; the Python comparison
  `date <= old_date` is lexicographic comparison by code point, embedded
  as a boolean function on `String`.
* A record field that may hold the empty string instead of a number
  (`price`) is `Option ℚ` with `none` for the empty string.
* Exceptions that escape `update_database` (a `ValueError` from
  `datetime.strptime`, a `KeyError` from a missing address) abort the run
  before `commit()`: the function returns `none` and the stored table is
  unchanged.
-/

/-! ## Python string comparison (lexicographic by code point) -/

/-- Lexicographic `≤` on lists of characters, comparing code points, the
order Python uses for `str` comparison. -/
def lexLe : List Char → List Char → Bool
  | [], _ => true
  | _ :: _, [] => false
  | a :: as, b :: bs =>
    if a < b then true
    else if b < a then false
    else lexLe as bs

/-- The Python expression `s <= t` on strings. -/
def pyStrLe (s t : String) : Bool :=
  lexLe s.data t.data

/-! ## Python `round(x, 6)` -/

/-- Round `q * 10^6` to the nearest integer, ties to even: the rounding
Python's `round` performs (on the exact value). The fractional part of
`q * 10^6 = (q.num * 10^6) / q.den` is compared with `1/2` by
cross-multiplication with the (positive) denominator. -/
def roundHalfEven6 (q : ℚ) : ℤ :=
  let n : ℤ := q.num * 1000000
  let d : ℤ := (q.den : ℤ)
  let f : ℤ := n / d
  let r : ℤ := n % d
  if 2 * r < d then f
  else if d < 2 * r then f + 1
  else if 2 ∣ f then f else f + 1

/-- The Python expression `round(x, 6)`. -/
def pyRound6 (q : ℚ) : ℚ :=
  mkRat (roundHalfEven6 q) 1000000

/-! ## `datetime.strptime(date, "%d/%m/%Y")` and `strftime("%Y-%m-%d")` -/

/-- Gregorian leap-year test, as in `datetime`. -/
def isLeap (y : ℕ) : Bool :=
  y % 4 == 0 && (y % 100 != 0 || y % 400 == 0)

/-- Number of days of month `m` in year `y`, as in `datetime`. -/
def daysInMonth (y m : ℕ) : ℕ :=
  if m = 2 then (if isLeap y then 29 else 28)
  else if m = 4 ∨ m = 6 ∨ m = 9 ∨ m = 11 then 30
  else 31

/-- Split a character list at every `'/'`. -/
def splitSlash : List Char → List (List Char)
  | [] => [[]]
  | c :: cs =>
    if c = '/' then [] :: splitSlash cs
    else
      match splitSlash cs with
      | [] => [[c]]
      | g :: gs => (c :: g) :: gs

/-- Value of a non-empty, all-decimal-digit character list; `none` if the
list is empty or holds any other character. -/
def digitsVal (cs : List Char) : Option ℕ :=
  if cs = [] then none else go cs 0
where
  go : List Char → ℕ → Option ℕ
    | [], acc => some acc
    | c :: cs, acc =>
      if '0' ≤ c ∧ c ≤ '9' then go cs (acc * 10 + (c.toNat - 48)) else none

/-- `datetime.strptime(s, "%d/%m/%Y")`, returned as `(day, month, year)`;
`none` models the `ValueError` raised on any other shape. The `%d` and
`%m` directives accept one or two digits, `%Y` exactly four; `datetime`
then requires a calendar-valid day and a year of at least 1. -/
def parseDate (s : String) : Option (ℕ × ℕ × ℕ) :=
  match splitSlash s.data with
  | [ds, ms, ys] =>
    match digitsVal ds, digitsVal ms, digitsVal ys with
    | some d, some m, some y =>
      if ds.length ≤ 2 ∧ ms.length ≤ 2 ∧ ys.length = 4 ∧
          1 ≤ d ∧ 1 ≤ m ∧ m ≤ 12 ∧ 1 ≤ y ∧ d ≤ daysInMonth y m then
        some (d, m, y)
      else none
    | _, _, _ => none
  | _ => none

/-- The decimal digit character for `n % 10`. -/
def digitChar10 (n : ℕ) : Char :=
  Char.ofNat (48 + n % 10)

/-- Two-digit zero-padded decimal rendering (`%m`, `%d`). -/
def pad2 (n : ℕ) : List Char :=
  [digitChar10 (n / 10), digitChar10 n]

/-- Four-digit zero-padded decimal rendering (`%Y` for the four-digit
years `%Y` parses). -/
def pad4 (n : ℕ) : List Char :=
  [digitChar10 (n / 1000), digitChar10 (n / 100), digitChar10 (n / 10), digitChar10 n]

/-- `datetime(y, m, d).strftime("%Y-%m-%d")`. -/
def isoDate (y m d : ℕ) : String :=
  ⟨pad4 y ++ '-' :: pad2 m ++ '-' :: pad2 d⟩

/-- The normalised (ISO-formatted) date of a raw `dd/mm/yyyy` field:
line 107 of the script, `datetime.strptime(date, "%d/%m/%Y").strftime("%Y-%m-%d")`. -/
def normDate (s : String) : Option String :=
  (parseDate s).map fun x => isoDate x.2.2 x.2.1 x.1

/-! ## Data model -/

/-- The structured `"address"` object of an input record. -/
structure Address where
  street : String
  postal_code : String
  city : String
  country : Option String
  deriving DecidableEq

/-- One raw JSON record of the input batch. `price = none` models a
record whose `"price"` field is the empty string. -/
structure Record where
  latitude : ℚ
  longitude : ℚ
  price : Option ℚ
  price_date : String
  addressCompact : Option String
  address : Option Address
  deriving DecidableEq

/-- One row of the `Stations` table. -/
structure Station where
  id : ℕ
  latitude : ℚ
  longitude : ℚ
  fuel_price : ℚ
  price_date : String
  address : String
  deriving DecidableEq

/-- Lines 96-102: use `"address-compact"` verbatim when present, else
flatten the structured `"address"`; `none` models the `KeyError` raised
when neither key is present. -/
def buildAddress (a : Address) : String :=
  a.street ++ ", " ++ a.postal_code ++ ", " ++ a.city ++
    (match a.country with
     | some c => ", " ++ c
     | none => "")

def resolveAddress (r : Record) : Option String :=
  match r.addressCompact with
  | some s => some s
  | none => r.address.map buildAddress

/-- The `SELECT ... FROM Stations WHERE latitude=? AND longitude=?`
lookup followed by `fetchone()`: the first row whose stored coordinates
equal the probe exactly. -/
def findStation (stations : List Station) (la lo : ℚ) : Option Station :=
  stations.find? fun st => decide (st.latitude = la) && decide (st.longitude = lo)

/-- The rowid `AUTOINCREMENT` assigns to a freshly inserted row: one more
than the largest id in the table. -/
def freshId (stations : List Station) : ℕ :=
  stations.foldr (fun st m => max st.id m) 0 + 1

/-- What one loop iteration did to the table. -/
inductive Ev
  | added (la lo pr : ℚ) (dt : String)
  | updated (la lo pr : ℚ) (dt : String)
  | ignored
  deriving DecidableEq

/-- Lines 85-92: the validation short-circuit
`price == "" or float(price) < 0.1 or date == ""`. -/
def skips (r : Record) : Bool :=
  match r.price with
  | none => true
  | some pr => decide (pr < mkRat 1 10) || decide (r.price_date = "")

/-- The `UPDATE Stations SET fuel_price = ?, price_date = ? WHERE id = ?`
statement (lines 136-143). -/
def applyUpdate (sid : ℕ) (pr : ℚ) (dt : String) (stations : List Station) :
    List Station :=
  stations.map fun t =>
    if t.id = sid then { t with fuel_price := pr, price_date := dt } else t

/-- One iteration of the `for station in data` loop (lines 83-144),
acting on the current table; `none` models an uncaught exception
(`KeyError` on a missing address, `ValueError` on an unparseable date). -/
def processRecord (stations : List Station) (r : Record) :
    Option (List Station × Ev) :=
  match r.price with
  | none => some (stations, .ignored)
  | some pr =>
    if pr < mkRat 1 10 then some (stations, .ignored)
    else if r.price_date = "" then some (stations, .ignored)
    else
      match resolveAddress r with
      | none => none
      | some addr =>
        let la := pyRound6 r.latitude
        let lo := pyRound6 r.longitude
        match normDate r.price_date with
        | none => none
        | some dt =>
          match findStation stations la lo with
          | none =>
            some (stations ++
              [{ id := freshId stations, latitude := la, longitude := lo,
                 fuel_price := pr, price_date := dt, address := addr }],
              .added la lo pr dt)
          | some st =>
            if pyStrLe dt st.price_date then some (stations, .ignored)
            else some (applyUpdate st.id pr dt stations, .updated la lo pr dt)

/-- `update_database` (lines 72-149): runs the loop over the batch and
returns the final table with the counters `(n_added, n_updated,
n_ignored)`; `none` models an exception escaping before `commit()`, in
which case the stored table is unchanged. -/
def update_database (stations : List Station) :
    List Record → Option (List Station × ℕ × ℕ × ℕ)
  | [] => some (stations, 0, 0, 0)
  | r :: rs =>
    match processRecord stations r with
    | none => none
    | some (s1, ev) =>
      match update_database s1 rs with
      | none => none
      | some (s2, a, u, i) =>
        match ev with
        | .added _ _ _ _ => some (s2, a + 1, u, i)
        | .updated _ _ _ _ => some (s2, a, u + 1, i)
        | .ignored => some (s2, a, u, i + 1)

/-- The same loop, recording the per-record events instead of counters. -/
def runEvents (stations : List Station) :
    List Record → Option (List Station × List Ev)
  | [] => some (stations, [])
  | r :: rs =>
    match processRecord stations r with
    | none => none
    | some (s1, ev) =>
      match runEvents s1 rs with
      | none => none
      | some (s2, evs) => some (s2, ev :: evs)

/-- How one event changes the `(n_added, n_updated, n_ignored)` counters. -/
def bumpCounters (ev : Ev) (c : ℕ × ℕ × ℕ) : ℕ × ℕ × ℕ :=
  match ev with
  | .added _ _ _ _ => (c.1 + 1, c.2.1, c.2.2)
  | .updated _ _ _ _ => (c.1, c.2.1 + 1, c.2.2)
  | .ignored => (c.1, c.2.1, c.2.2 + 1)

/-! ## Derived notions used to state the claims -/

/-- The stored coordinate pair of a row. -/
def stKey (st : Station) : ℚ × ℚ :=
  (st.latitude, st.longitude)

/-- The coordinate pair of a record after rounding, the matching key. -/
def recKey (r : Record) : ℚ × ℚ :=
  (pyRound6 r.latitude, pyRound6 r.longitude)

/-- Structural facts the SQLite schema guarantees for the `Stations`
table: `id` is a primary key and `(latitude, longitude)` is `UNIQUE`. -/
def wfStore (stations : List Station) : Prop :=
  (stations.map Station.id).Nodup ∧ (stations.map stKey).Nodup

instance (stations : List Station) : Decidable (wfStore stations) := by
  unfold wfStore; infer_instance

/-- The observable content (price, date, address) stored at a coordinate
pair. -/
def obsAt (stations : List Station) (la lo : ℚ) : Option (ℚ × String × String) :=
  (findStation stations la lo).map fun st => (st.fuel_price, st.price_date, st.address)

/-- The stored `price_date` at a coordinate pair. -/
def dateAt (stations : List Station) (la lo : ℚ) : Option String :=
  (findStation stations la lo).map Station.price_date

/-- The dates of the observations accepted (inserted or applied as
updates) for one coordinate pair during a run. -/
def acceptedDates (evs : List Ev) (la lo : ℚ) : List String :=
  evs.filterMap fun ev =>
    match ev with
    | .added la' lo' _ dt => if la' = la ∧ lo' = lo then some dt else none
    | .updated la' lo' _ dt => if la' = la ∧ lo' = lo then some dt else none
    | .ignored => none

/-- A record aborts the run: it passes the validation short-circuit but
its address or its date raises an uncaught exception. -/
def aborts (r : Record) : Bool :=
  !skips r && ((resolveAddress r).isNone || (normDate r.price_date).isNone)

def Ev.isAdded : Ev → Bool
  | .added _ _ _ _ => true
  | _ => false

def Ev.isUpdated : Ev → Bool
  | .updated _ _ _ _ => true
  | _ => false

def Ev.isIgnored : Ev → Bool
  | .ignored => true
  | _ => false

/-- Fold `max` over a list of dates starting from an optional stored
date: the stored date a sequence of accepted observations leaves. -/
def maxAccum (d0 : Option String) (A : List String) : Option String :=
  A.foldl (fun acc a =>
    match acc with
    | none => some a
    | some b => some (max b a)) d0

/-- The observable content one valid record leaves at its own key, as a
function of the content previously stored there. -/
def effObs (o : Option (ℚ × String × String)) (r : Record) :
    Option (ℚ × String × String) :=
  match r.price, resolveAddress r, normDate r.price_date with
  | some pr, some ad, some dt =>
    match o with
    | none => some (pr, dt, ad)
    | some (p0, d0, a0) => if pyStrLe dt d0 then some (p0, d0, a0) else some (pr, dt, a0)
  | _, _, _ => o

/-- The content a batch whose records have pairwise distinct keys leaves
at a coordinate pair. -/
def canonObs (stations : List Station) (rs : List Record) (la lo : ℚ) :
    Option (ℚ × String × String) :=
  match rs.filter (fun r => decide (recKey r = (la, lo)) && !skips r) with
  | [] => obsAt stations la lo
  | r :: _ => effObs (obsAt stations la lo) r

/-- Outcome classification of one record against the content stored at
its key (meaningful when no record of the batch aborts). -/
def classAdd (o : Option (ℚ × String × String)) (r : Record) : Bool :=
  !skips r && o.isNone

def classUpd (o : Option (ℚ × String × String)) (r : Record) : Bool :=
  !skips r &&
    match o, normDate r.price_date with
    | some (_, d0, _), some dt => !pyStrLe dt d0
    | _, _ => false

def classIgn (o : Option (ℚ × String × String)) (r : Record) : Bool :=
  skips r ||
    match o, normDate r.price_date with
    | some (_, d0, _), some dt => pyStrLe dt d0
    | _, _ => false

/-- The stored coordinate pair of a row after re-rounding. -/
def roundedKey (st : Station) : ℚ × ℚ :=
  (pyRound6 st.latitude, pyRound6 st.longitude)

/-- Every stored coordinate is a fixed point of the rounding (true of
every row this engine ever writes). -/
def roundStable (stations : List Station) : Prop :=
  ∀ st ∈ stations, pyRound6 st.latitude = st.latitude ∧ pyRound6 st.longitude = st.longitude

instance (stations : List Station) : Decidable (roundStable stations) := by
  unfold roundStable
  infer_instance

/-- A concrete record used in the tests and witnesses below
(scenario 1 of the spec, with a compact address). -/
def rec1 : Record where
  latitude := mkRat 451 10
  longitude := mkRat 82 10
  price := some (mkRat 9 10)
  price_date := "01/01/2024"
  addressCompact := some "Main St, 10"
  address := none

/-- The row scenario 1 expects `rec1` to create in an empty store. -/
def st1 : Station where
  id := 1
  latitude := mkRat 451 10
  longitude := mkRat 41 5
  fuel_price := mkRat 9 10
  price_date := "2024-01-01"
  address := "Main St, 10"



/-! ## The embedded string comparison agrees with lexicographic order -/

theorem lexLe_eq_true_iff (as bs : List Char) :
    lexLe as bs = true ↔ ¬ List.Lex (· < ·) bs as := by
  induction as generalizing bs with
  | nil =>
    simp [lexLe, List.Lex.not_nil_right]
  | cons a as ih =>
    cases bs with
    | nil =>
      simp only [lexLe, Bool.false_eq_true, false_iff, not_not]
      exact List.Lex.nil
    | cons b bs =>
      rcases lt_trichotomy a b with hab | hab | hab
      · simp only [lexLe, if_pos hab, true_iff]
        intro h
        cases h with
        | cons h' => exact lt_irrefl _ hab
        | rel h' => exact lt_asymm hab h'
      · subst hab
        have hstep : lexLe (a :: as) (a :: bs) = lexLe as bs := by
          simp only [lexLe]
          rw [if_neg (lt_irrefl a), if_neg (lt_irrefl a)]
        rw [hstep, ih bs, List.Lex.cons_iff]
      · simp only [lexLe, if_neg (lt_asymm hab), if_pos hab, Bool.false_eq_true, false_iff,
          not_not]
        exact List.Lex.rel hab

theorem pyStrLe_iff (s t : String) : pyStrLe s t = true ↔ s ≤ t := by
  rw [pyStrLe, lexLe_eq_true_iff]
  constructor
  · intro h
    show ¬ t < s
    intro hlt
    exact h (String.lt_iff_toList_lt.mp hlt)
  · intro h
    have h' : ¬ t < s := h
    intro hlex
    exact h' (String.lt_iff_toList_lt.mpr hlex)

theorem pyStrLe_eq_false_iff (s t : String) : pyStrLe s t = false ↔ t < s := by
  rw [← Bool.not_eq_true, pyStrLe_iff, not_le]

/-! ## Facts about the rounding function -/

theorem pyRound6_of_den_dvd (q : ℚ) (h : (q.den : ℤ) ∣ 1000000) : pyRound6 q = q := by
  rcases h with ⟨c, hc⟩
  have hden : (q.den : ℤ) ≠ 0 := Int.natCast_ne_zero.mpr q.den_nz
  have hn : q.num * 1000000 = (q.den : ℤ) * (q.num * c) := by
    rw [hc]; ring
  have hediv : (q.num * 1000000) / (q.den : ℤ) = q.num * c := by
    rw [hn, Int.mul_ediv_cancel_left _ hden]
  have hemod : (q.num * 1000000) % (q.den : ℤ) = 0 := by
    rw [hn, Int.mul_emod_right]
  have hdpos : 0 < (q.den : ℤ) := by
    exact_mod_cast q.den_pos
  have hr : roundHalfEven6 q = q.num * c := by
    simp only [roundHalfEven6, hediv, hemod, mul_zero]
    rw [if_pos hdpos]
  have hc0 : (c : ℚ) ≠ 0 := by
    intro h0
    have : c = 0 := by exact_mod_cast h0
    subst this
    simp at hc
  rw [pyRound6, hr, Rat.mkRat_eq_div]
  have h6 : ((1000000 : ℕ) : ℚ) = ((q.den : ℚ)) * ((c : ℚ)) := by
    have h7 : ((1000000 : ℤ) : ℚ) = (((q.den : ℤ) * c : ℤ) : ℚ) := by
      exact_mod_cast congrArg (fun z : ℤ => (z : ℚ)) hc
    push_cast at h7
    exact_mod_cast h7
  rw [h6]
  push_cast
  rw [mul_div_mul_right _ _ hc0]
  exact Rat.num_div_den q

theorem den_pyRound6_dvd (q : ℚ) : ((pyRound6 q).den : ℤ) ∣ 1000000 := by
  rw [pyRound6, Rat.mkRat_eq_divInt]
  exact_mod_cast Rat.den_dvd (roundHalfEven6 q) ((1000000 : ℕ) : ℤ)

theorem pyRound6_idem (q : ℚ) : pyRound6 (pyRound6 q) = pyRound6 q :=
  pyRound6_of_den_dvd _ (den_pyRound6_dvd q)

/-- Scenario 2: same coordinates as `rec1`, newer date, different price. -/
def rec2 : Record where
  latitude := mkRat 451 10
  longitude := mkRat 82 10
  price := some (mkRat 11 10)
  price_date := "02/01/2024"
  addressCompact := some "Elsewhere 3"
  address := none

/-- The row `rec2` should leave after updating `st1`. -/
def st1b : Station where
  id := 1
  latitude := mkRat 451 10
  longitude := mkRat 41 5
  fuel_price := mkRat 11 10
  price_date := "2024-01-02"
  address := "Main St, 10"

/-- A record whose price `0.05` is below the realism floor. -/
def rec005 : Record where
  latitude := 1
  longitude := 2
  price := some (mkRat 1 20)
  price_date := "05/06/2024"
  addressCompact := some "Floor St. 1"
  address := none

/-- A record with a structured address, no country. -/
def rec3 : Record where
  latitude := 3
  longitude := 4
  price := some 1
  price_date := "15/07/2024"
  addressCompact := none
  address := some ⟨"123 rue de la rue", "01234", "Laville", none⟩

/-- A record with a structured address including a country. -/
def rec4 : Record where
  latitude := 5
  longitude := 6
  price := some 1
  price_date := "16/07/2024"
  addressCompact := none
  address := some ⟨"1 Main St", "99999", "Atown", some "Nowhere"⟩

/-- A record whose date field is non-empty but not parseable as
`dd/mm/yyyy`. -/
def recBadDate : Record where
  latitude := 7
  longitude := 8
  price := some 1
  price_date := "31/31/2024"
  addressCompact := some "Bad Date Rd"
  address := none

/-- A stored row whose latitude is not a fixed point of the rounding
(about `1.2e-7`); such a row can exist in the table, since the schema
does not constrain coordinate values. -/
def stU : Station where
  id := 1
  latitude := mkRat 3 25000000
  longitude := 0
  fuel_price := 1
  price_date := "2024-01-01"
  address := "U"

/-- A record whose raw latitude (`1e-7`) rounds to `0`, colliding with
`stU`'s rounded latitude while missing its exact stored value. -/
def recU : Record where
  latitude := mkRat 1 10000000
  longitude := 0
  price := some 1
  price_date := "05/05/2024"
  addressCompact := some "V"
  address := none

/-- The row `recU` inserts next to `stU`. -/
def stUnew : Station where
  id := 2
  latitude := 0
  longitude := 0
  fuel_price := 1
  price_date := "2024-05-05"
  address := "V"

/-- The row `rec2` creates when it arrives first, into an empty store. -/
def st2b : Station where
  id := 1
  latitude := mkRat 451 10
  longitude := mkRat 41 5
  fuel_price := mkRat 11 10
  price_date := "2024-01-02"
  address := "Elsewhere 3"

/-- The row `rec3` creates after `rec1` (ids assigned in arrival order). -/
def st3 : Station where
  id := 2
  latitude := 3
  longitude := 4
  fuel_price := 1
  price_date := "2024-07-15"
  address := "123 rue de la rue, 01234, Laville"

/-- The row `rec3` creates when it arrives first. -/
def st3a : Station where
  id := 1
  latitude := 3
  longitude := 4
  fuel_price := 1
  price_date := "2024-07-15"
  address := "123 rue de la rue, 01234, Laville"

/-- The row `rec1` creates when it arrives second. -/
def st1c : Station where
  id := 2
  latitude := mkRat 451 10
  longitude := mkRat 41 5
  fuel_price := mkRat 9 10
  price_date := "2024-01-01"
  address := "Main St, 10"

/-! ## Case analysis of one loop iteration -/

theorem skips_eq_false_iff (r : Record) :
    skips r = false ↔
      ∃ pr, r.price = some pr ∧ ¬ pr < mkRat 1 10 ∧ r.price_date ≠ "" := by
  cases hp : r.price with
  | none => simp [skips, hp]
  | some pr => simp [skips, hp, not_or]

theorem processRecord_of_skips (s : List Station) (r : Record) (h : skips r = true) :
    processRecord s r = some (s, .ignored) := by
  cases hp : r.price with
  | none => simp [processRecord, hp]
  | some pr =>
    simp only [skips, hp, Bool.or_eq_true, decide_eq_true_eq] at h
    by_cases h1 : pr < mkRat 1 10
    · simp [processRecord, hp, h1]
    · have h2 : r.price_date = "" := h.resolve_left h1
      simp [processRecord, hp, h1, h2]

theorem processRecord_of_aborts (s : List Station) (r : Record) (h : aborts r = true) :
    processRecord s r = none := by
  rw [aborts, Bool.and_eq_true, Bool.not_eq_true'] at h
  obtain ⟨hsk, hor⟩ := h
  obtain ⟨pr, hp, h1, h2⟩ := (skips_eq_false_iff r).mp hsk
  rw [Bool.or_eq_true, Option.isNone_iff_eq_none, Option.isNone_iff_eq_none] at hor
  rcases hor with had | hdt
  · simp [processRecord, hp, h1, h2, had]
  · cases had : resolveAddress r with
    | none => simp [processRecord, hp, h1, h2, had]
    | some ad => simp [processRecord, hp, h1, h2, had, hdt]

theorem processRecord_insert (s : List Station) (r : Record) (pr : ℚ) (ad dt : String)
    (hp : r.price = some pr) (h1 : ¬ pr < mkRat 1 10) (h2 : r.price_date ≠ "")
    (had : resolveAddress r = some ad) (hdt : normDate r.price_date = some dt)
    (hf : findStation s (pyRound6 r.latitude) (pyRound6 r.longitude) = none) :
    processRecord s r =
      some (s ++ [⟨freshId s, pyRound6 r.latitude, pyRound6 r.longitude, pr, dt, ad⟩],
        .added (pyRound6 r.latitude) (pyRound6 r.longitude) pr dt) := by
  simp [processRecord, hp, h1, h2, had, hdt, hf]

theorem processRecord_ignore_stale (s : List Station) (r : Record) (pr : ℚ) (ad dt : String)
    (st : Station) (hp : r.price = some pr) (h1 : ¬ pr < mkRat 1 10) (h2 : r.price_date ≠ "")
    (had : resolveAddress r = some ad) (hdt : normDate r.price_date = some dt)
    (hf : findStation s (pyRound6 r.latitude) (pyRound6 r.longitude) = some st)
    (hle : pyStrLe dt st.price_date = true) :
    processRecord s r = some (s, .ignored) := by
  simp [processRecord, hp, h1, h2, had, hdt, hf, hle]

theorem processRecord_update (s : List Station) (r : Record) (pr : ℚ) (ad dt : String)
    (st : Station) (hp : r.price = some pr) (h1 : ¬ pr < mkRat 1 10) (h2 : r.price_date ≠ "")
    (had : resolveAddress r = some ad) (hdt : normDate r.price_date = some dt)
    (hf : findStation s (pyRound6 r.latitude) (pyRound6 r.longitude) = some st)
    (hgt : pyStrLe dt st.price_date = false) :
    processRecord s r =
      some (applyUpdate st.id pr dt s,
        .updated (pyRound6 r.latitude) (pyRound6 r.longitude) pr dt) := by
  simp [processRecord, hp, h1, h2, had, hdt, hf, hgt]

/-- Full inversion of one loop iteration that returned a result. -/
theorem processRecord_some_cases (s : List Station) (r : Record) (s1 : List Station) (ev : Ev)
    (h : processRecord s r = some (s1, ev)) :
    (skips r = true ∧ s1 = s ∧ ev = .ignored) ∨
    ∃ pr ad dt, r.price = some pr ∧ ¬ pr < mkRat 1 10 ∧ r.price_date ≠ "" ∧
      resolveAddress r = some ad ∧ normDate r.price_date = some dt ∧
      ((findStation s (pyRound6 r.latitude) (pyRound6 r.longitude) = none ∧
          s1 = s ++ [⟨freshId s, pyRound6 r.latitude, pyRound6 r.longitude, pr, dt, ad⟩] ∧
          ev = .added (pyRound6 r.latitude) (pyRound6 r.longitude) pr dt) ∨
        ∃ st, findStation s (pyRound6 r.latitude) (pyRound6 r.longitude) = some st ∧
          ((pyStrLe dt st.price_date = true ∧ s1 = s ∧ ev = .ignored) ∨
           (pyStrLe dt st.price_date = false ∧ s1 = applyUpdate st.id pr dt s ∧
             ev = .updated (pyRound6 r.latitude) (pyRound6 r.longitude) pr dt))) := by
  cases hp : r.price with
  | none =>
    rw [processRecord_of_skips s r (by simp [skips, hp])] at h
    obtain ⟨hs, he⟩ := Prod.mk.injEq .. ▸ Option.some.injEq .. ▸ h
    exact Or.inl ⟨by simp [skips, hp], hs.symm, he.symm⟩
  | some pr =>
    by_cases h1 : pr < mkRat 1 10
    · rw [processRecord_of_skips s r (by simp [skips, hp, h1])] at h
      refine Or.inl ⟨by simp [skips, hp, h1], ?_, ?_⟩ <;>
        simp only [Option.some.injEq, Prod.mk.injEq] at h
      · exact h.1.symm
      · exact h.2.symm
    · by_cases h2 : r.price_date = ""
      · rw [processRecord_of_skips s r (by simp [skips, hp, h2])] at h
        refine Or.inl ⟨by simp [skips, hp, h2], ?_, ?_⟩ <;>
          simp only [Option.some.injEq, Prod.mk.injEq] at h
        · exact h.1.symm
        · exact h.2.symm
      · cases had : resolveAddress r with
        | none =>
          rw [processRecord_of_aborts s r
            (by simp [aborts, skips, hp, h1, h2, had])] at h
          exact absurd h (by simp)
        | some ad =>
          cases hdt : normDate r.price_date with
          | none =>
            rw [processRecord_of_aborts s r
              (by simp [aborts, skips, hp, h1, h2, had, hdt])] at h
            exact absurd h (by simp)
          | some dt =>
            refine Or.inr ⟨pr, ad, dt, rfl, h1, h2, rfl, rfl, ?_⟩
            cases hf : findStation s (pyRound6 r.latitude) (pyRound6 r.longitude) with
            | none =>
              rw [processRecord_insert s r pr ad dt hp h1 h2 had hdt hf] at h
              simp only [Option.some.injEq, Prod.mk.injEq] at h
              exact Or.inl ⟨rfl, h.1.symm, h.2.symm⟩
            | some st =>
              cases hle : pyStrLe dt st.price_date with
              | true =>
                rw [processRecord_ignore_stale s r pr ad dt st hp h1 h2 had hdt hf hle] at h
                simp only [Option.some.injEq, Prod.mk.injEq] at h
                exact Or.inr ⟨st, rfl, Or.inl ⟨hle, h.1.symm, h.2.symm⟩⟩
              | false =>
                rw [processRecord_update s r pr ad dt st hp h1 h2 had hdt hf hle] at h
                simp only [Option.some.injEq, Prod.mk.injEq] at h
                exact Or.inr ⟨st, rfl, Or.inr ⟨hle, h.1.symm, h.2.symm⟩⟩

/-! ## Lookup and schema facts -/

theorem findStation_eq_none_iff (s : List Station) (la lo : ℚ) :
    findStation s la lo = none ↔ ∀ st ∈ s, ¬ (st.latitude = la ∧ st.longitude = lo) := by
  rw [findStation, List.find?_eq_none]
  constructor
  · intro h st hst hc
    have h3 := h st hst
    simp [hc.1, hc.2] at h3
  · intro h st hst
    have h3 := h st hst
    simp only [Bool.and_eq_true, decide_eq_true_eq]
    tauto

theorem findStation_some_facts {s : List Station} {la lo : ℚ} {st : Station}
    (h : findStation s la lo = some st) :
    st ∈ s ∧ st.latitude = la ∧ st.longitude = lo := by
  have h1 := List.find?_some h
  have h2 := List.mem_of_find?_eq_some h
  simp only [Bool.and_eq_true, decide_eq_true_eq] at h1
  exact ⟨h2, h1.1, h1.2⟩

theorem findStation_append_none {s : List Station} {la lo : ℚ} (x : Station)
    (h : findStation s la lo = none) :
    findStation (s ++ [x]) la lo = findStation [x] la lo := by
  rw [findStation] at h ⊢
  rw [List.find?_append, h, Option.none_or]
  rfl

theorem findStation_append_some {s : List Station} {la lo : ℚ} {st : Station} (x : Station)
    (h : findStation s la lo = some st) :
    findStation (s ++ [x]) la lo = some st := by
  rw [findStation] at h ⊢
  rw [List.find?_append, h]
  rfl

theorem findStation_singleton (x : Station) (la lo : ℚ) :
    findStation [x] la lo =
      if x.latitude = la ∧ x.longitude = lo then some x else none := by
  by_cases h : x.latitude = la ∧ x.longitude = lo
  · simp [findStation, List.find?, h.1, h.2, if_pos h]
  · rw [if_neg h]
    rw [Classical.not_and_iff_or_not_not] at h
    rcases h with h | h <;> simp [findStation, List.find?, h]

theorem findStation_applyUpdate (sid : ℕ) (pr : ℚ) (dt : String) (s : List Station)
    (la lo : ℚ) :
    findStation (applyUpdate sid pr dt s) la lo =
      (findStation s la lo).map fun t =>
        if t.id = sid then { t with fuel_price := pr, price_date := dt } else t := by
  have hpf : ((fun st : Station => decide (st.latitude = la) && decide (st.longitude = lo)) ∘
      fun t => if t.id = sid then { t with fuel_price := pr, price_date := dt } else t) =
      fun st : Station => decide (st.latitude = la) && decide (st.longitude = lo) := by
    funext t
    by_cases h : t.id = sid <;> simp [Function.comp, h]
  rw [applyUpdate, findStation, List.find?_map, hpf, findStation]

theorem id_le_fold (s : List Station) (st : Station) (h : st ∈ s) :
    st.id ≤ s.foldr (fun st m => max st.id m) 0 := by
  induction s with
  | nil => cases h
  | cons a tl ih =>
    rcases List.mem_cons.mp h with h | h
    · subst h
      exact le_max_left _ _
    · exact le_trans (ih h) (le_max_right _ _)

theorem id_lt_freshId {s : List Station} {st : Station} (h : st ∈ s) : st.id < freshId s :=
  Nat.lt_succ_of_le (id_le_fold s st h)

theorem wfStore_insert {s : List Station} {la lo : ℚ} (pr : ℚ) (dt ad : String)
    (hwf : wfStore s) (hf : findStation s la lo = none) :
    wfStore (s ++ [⟨freshId s, la, lo, pr, dt, ad⟩]) := by
  obtain ⟨hid, hkey⟩ := hwf
  constructor
  · rw [List.map_append, List.nodup_append]
    refine ⟨hid, List.nodup_singleton _, ?_⟩
    intro a ha hb
    simp only [List.map_cons, List.map_nil, List.mem_singleton] at hb
    obtain ⟨st, hst, hsta⟩ := List.mem_map.mp ha
    subst hb
    exact absurd (hsta ▸ id_lt_freshId hst) (lt_irrefl _)
  · rw [List.map_append, List.nodup_append]
    refine ⟨hkey, List.nodup_singleton _, ?_⟩
    intro a ha hb
    simp only [List.map_cons, List.map_nil, List.mem_singleton] at hb
    obtain ⟨st, hst, hsta⟩ := List.mem_map.mp ha
    rw [findStation_eq_none_iff] at hf
    apply hf st hst
    have : stKey st = (la, lo) := by
      rw [hsta, hb]
      rfl
    exact ⟨congrArg Prod.fst this, congrArg Prod.snd this⟩

theorem map_id_applyUpdate (sid : ℕ) (pr : ℚ) (dt : String) (s : List Station) :
    (applyUpdate sid pr dt s).map Station.id = s.map Station.id := by
  rw [applyUpdate, List.map_map]
  congr 1
  funext t
  by_cases h : t.id = sid <;> simp [Function.comp, h]

theorem map_stKey_applyUpdate (sid : ℕ) (pr : ℚ) (dt : String) (s : List Station) :
    (applyUpdate sid pr dt s).map stKey = s.map stKey := by
  rw [applyUpdate, List.map_map]
  congr 1
  funext t
  by_cases h : t.id = sid <;> simp [Function.comp, stKey, h]

theorem wfStore_applyUpdate (sid : ℕ) (pr : ℚ) (dt : String) {s : List Station}
    (hwf : wfStore s) : wfStore (applyUpdate sid pr dt s) := by
  obtain ⟨hid, hkey⟩ := hwf
  exact ⟨map_id_applyUpdate sid pr dt s ▸ hid, map_stKey_applyUpdate sid pr dt s ▸ hkey⟩

theorem wfStore_processRecord {s : List Station} {r : Record} {s1 : List Station} {ev : Ev}
    (hwf : wfStore s) (h : processRecord s r = some (s1, ev)) : wfStore s1 := by
  rcases processRecord_some_cases s r s1 ev h with ⟨_, rfl, _⟩ | ⟨pr, ad, dt, _, _, _, _, _, hcase⟩
  · exact hwf
  · rcases hcase with ⟨hf, rfl, _⟩ | ⟨st, hf, hcase2⟩
    · exact wfStore_insert pr dt ad hwf hf
    · rcases hcase2 with ⟨_, rfl, _⟩ | ⟨_, rfl, _⟩
      · exact hwf
      · exact wfStore_applyUpdate st.id pr dt hwf

theorem runEvents_nil (s : List Station) : runEvents s [] = some (s, []) := rfl

theorem update_database_nil (s : List Station) : update_database s [] = some (s, 0, 0, 0) := rfl

theorem runEvents_cons_none {s : List Station} {r : Record} (rs : List Record)
    (h : processRecord s r = none) : runEvents s (r :: rs) = none := by
  rw [runEvents, h]

theorem runEvents_cons_some {s s1 : List Station} {r : Record} {ev : Ev} (rs : List Record)
    (h : processRecord s r = some (s1, ev)) :
    runEvents s (r :: rs) = (runEvents s1 rs).map fun p => (p.1, ev :: p.2) := by
  cases hrun : runEvents s1 rs with
  | none => simp only [runEvents, h, hrun]; rfl
  | some q =>
    obtain ⟨s2, evs⟩ := q
    simp only [runEvents, h, hrun]
    rfl

theorem update_database_cons_none {s : List Station} {r : Record} (rs : List Record)
    (h : processRecord s r = none) : update_database s (r :: rs) = none := by
  rw [update_database, h]

theorem update_database_cons_some {s s1 : List Station} {r : Record} {ev : Ev}
    (rs : List Record) (h : processRecord s r = some (s1, ev)) :
    update_database s (r :: rs) =
      (update_database s1 rs).map fun p => (p.1, bumpCounters ev p.2) := by
  cases hrun : update_database s1 rs with
  | none =>
    cases ev <;> (simp only [update_database, h, hrun]; rfl)
  | some q =>
    obtain ⟨s2, a, u, i⟩ := q
    cases ev <;> (simp only [update_database, h, hrun]; rfl)

theorem wfStore_runEvents {s : List Station} {rs : List Record} {s1 : List Station}
    {evs : List Ev} (hwf : wfStore s) (h : runEvents s rs = some (s1, evs)) : wfStore s1 := by
  induction rs generalizing s evs with
  | nil =>
    simp only [runEvents, Option.some.injEq, Prod.mk.injEq] at h
    exact h.1 ▸ hwf
  | cons r rs ih =>
    cases hpr : processRecord s r with
    | none => rw [runEvents_cons_none rs hpr] at h; cases h
    | some p =>
      obtain ⟨sa, ev⟩ := p
      rw [runEvents_cons_some rs hpr] at h
      cases hrun : runEvents sa rs with
      | none => rw [hrun] at h; cases h
      | some q =>
        rw [hrun] at h
        obtain ⟨sb, evs2⟩ := q
        simp only [Option.map_some', Option.some.injEq, Prod.mk.injEq] at h
        exact h.1 ▸ ih (wfStore_processRecord hwf hpr) (h.1 ▸ hrun)

/-! ## The counter run agrees with the event run -/

theorem update_database_eq_runEvents (s : List Station) (rs : List Record) :
    update_database s rs = (runEvents s rs).map fun p =>
      (p.1, p.2.countP Ev.isAdded, p.2.countP Ev.isUpdated, p.2.countP Ev.isIgnored) := by
  induction rs generalizing s with
  | nil => rfl
  | cons r rs ih =>
    cases hpr : processRecord s r with
    | none => rw [update_database_cons_none rs hpr, runEvents_cons_none rs hpr]; rfl
    | some p =>
      obtain ⟨s1, ev⟩ := p
      rw [update_database_cons_some rs hpr, runEvents_cons_some rs hpr, ih]
      cases hrun : runEvents s1 rs with
      | none => rfl
      | some q =>
        obtain ⟨s2, evs⟩ := q
        cases ev <;>
          simp [bumpCounters, Ev.isAdded, Ev.isUpdated, Ev.isIgnored, List.countP_cons]

theorem countP_three_eq_length (evs : List Ev) :
    evs.countP Ev.isAdded + evs.countP Ev.isUpdated + evs.countP Ev.isIgnored =
      evs.length := by
  induction evs with
  | nil => rfl
  | cons ev evs ih =>
    cases ev <;>
      simp [List.countP_cons, Ev.isAdded, Ev.isUpdated, Ev.isIgnored] <;>
      omega

theorem runEvents_length {s s' : List Station} {rs : List Record} {evs : List Ev}
    (h : runEvents s rs = some (s', evs)) : evs.length = rs.length := by
  induction rs generalizing s evs with
  | nil =>
    simp only [runEvents, Option.some.injEq, Prod.mk.injEq] at h
    rw [← h.2]
    rfl
  | cons r rs ih =>
    cases hpr : processRecord s r with
    | none => rw [runEvents_cons_none rs hpr] at h; cases h
    | some p =>
      obtain ⟨s1, ev⟩ := p
      rw [runEvents_cons_some rs hpr] at h
      cases hrun : runEvents s1 rs with
      | none => rw [hrun] at h; cases h
      | some q =>
        rw [hrun] at h
        obtain ⟨s2, evs2⟩ := q
        simp only [Option.map_some', Option.some.injEq, Prod.mk.injEq] at h
        rw [← h.2, List.length_cons, ih (h.1 ▸ hrun), List.length_cons]

/-- If the counter run succeeds, so does the event run, with the same
final store and the counters counted from the events. -/
theorem runEvents_of_update_database {s s' : List Station} {rs : List Record}
    {a u i : ℕ} (h : update_database s rs = some (s', a, u, i)) :
    ∃ evs, runEvents s rs = some (s', evs) ∧
      a = evs.countP Ev.isAdded ∧ u = evs.countP Ev.isUpdated ∧
      i = evs.countP Ev.isIgnored := by
  rw [update_database_eq_runEvents] at h
  cases hrun : runEvents s rs with
  | none => rw [hrun] at h; cases h
  | some q =>
    rw [hrun] at h
    obtain ⟨s2, evs⟩ := q
    simp only [Option.map_some', Option.some.injEq, Prod.mk.injEq] at h
    obtain ⟨h1, h2, h3, h4⟩ := h
    refine ⟨evs, ?_, h2.symm, h3.symm, h4.symm⟩
    rw [h1]

theorem wfStore_update_database {s s' : List Station} {rs : List Record} {a u i : ℕ}
    (hwf : wfStore s) (h : update_database s rs = some (s', a, u, i)) : wfStore s' := by
  obtain ⟨evs, hrun, -⟩ := runEvents_of_update_database h
  exact wfStore_runEvents hwf hrun

/-! ## Frame and monotonicity of one iteration -/

theorem dateAt_eq_obsAt (s : List Station) (la lo : ℚ) :
    dateAt s la lo = (obsAt s la lo).map fun o => o.2.1 := by
  rw [dateAt, obsAt]
  cases h : findStation s la lo <;> simp

theorem obsAt_processRecord_of_ne {s : List Station} {r : Record} {s1 : List Station}
    {ev : Ev} (hwf : wfStore s) (h : processRecord s r = some (s1, ev)) (la lo : ℚ)
    (hne : (la, lo) ≠ recKey r) : obsAt s1 la lo = obsAt s la lo := by
  rcases processRecord_some_cases s r s1 ev h with ⟨_, rfl, _⟩ |
    ⟨pr, ad, dt, hp, h1, h2, had, hdt, hcase⟩
  · rfl
  · rcases hcase with ⟨hf, rfl, _⟩ | ⟨st, hf, hcase2⟩
    · cases hfla : findStation s la lo with
      | some st =>
        rw [obsAt, findStation_append_some _ hfla, obsAt, hfla]
      | none =>
        rw [obsAt, findStation_append_none _ hfla, findStation_singleton, obsAt, hfla]
        rw [if_neg]
        intro hc
        exact hne (Prod.ext (hc.1.symm) (hc.2.symm))
    · rcases hcase2 with ⟨_, rfl, _⟩ | ⟨hgt, rfl, _⟩
      · rfl
      · rw [obsAt, findStation_applyUpdate, obsAt]
        cases hfla : findStation s la lo with
        | none => rfl
        | some t =>
          obtain ⟨hmem_t, hlat_t, hlon_t⟩ := findStation_some_facts hfla
          obtain ⟨hmem_st, hlat_st, hlon_st⟩ := findStation_some_facts hf
          have hts : t.id ≠ st.id := by
            intro hid
            have hts2 : t = st :=
              List.inj_on_of_nodup_map hwf.1 hmem_t hmem_st hid
            apply hne
            rw [recKey, ← hlat_st, ← hlon_st, ← hts2, hlat_t, hlon_t]
          simp [hts]

theorem dateAt_processRecord_mono {s : List Station} {r : Record} {s1 : List Station}
    {ev : Ev} (hwf : wfStore s) (h : processRecord s r = some (s1, ev)) (la lo : ℚ)
    (d0 : String) (h0 : dateAt s la lo = some d0) :
    ∃ d1, dateAt s1 la lo = some d1 ∧ d0 ≤ d1 := by
  by_cases hne : (la, lo) = recKey r
  · rcases processRecord_some_cases s r s1 ev h with ⟨_, rfl, _⟩ |
      ⟨pr, ad, dt, hp, h1, h2, had, hdt, hcase⟩
    · exact ⟨d0, h0, le_refl d0⟩
    · have hla : la = pyRound6 r.latitude := congrArg Prod.fst hne
      have hlo : lo = pyRound6 r.longitude := congrArg Prod.snd hne
      rcases hcase with ⟨hf, rfl, _⟩ | ⟨st, hf, hcase2⟩
      · rw [dateAt, ← hla, ← hlo] at *
        rw [hla, hlo] at h0
        rw [hf] at h0
        cases h0
      · rcases hcase2 with ⟨_, rfl, _⟩ | ⟨hgt, rfl, _⟩
        · exact ⟨d0, h0, le_refl d0⟩
        · have hfla : findStation s la lo = some st := by
            rw [hla, hlo]; exact hf
          have hd0 : d0 = st.price_date := by
            rw [dateAt, hfla] at h0
            simpa using h0.symm
          refine ⟨dt, ?_, ?_⟩
          · rw [dateAt, findStation_applyUpdate, hfla]
            simp
          · rw [hd0]
            exact le_of_lt ((pyStrLe_eq_false_iff dt st.price_date).mp hgt)
  · have hfr := obsAt_processRecord_of_ne hwf h la lo hne
    rw [dateAt_eq_obsAt, hfr, ← dateAt_eq_obsAt]
    exact ⟨d0, h0, le_refl d0⟩

theorem dateAt_runEvents_mono {s : List Station} {rs : List Record} {s' : List Station}
    {evs : List Ev} (hwf : wfStore s) (h : runEvents s rs = some (s', evs)) (la lo : ℚ)
    (d0 : String) (h0 : dateAt s la lo = some d0) :
    ∃ d1, dateAt s' la lo = some d1 ∧ d0 ≤ d1 := by
  induction rs generalizing s evs d0 with
  | nil =>
    simp only [runEvents, Option.some.injEq, Prod.mk.injEq] at h
    exact ⟨d0, h.1 ▸ h0, le_refl d0⟩
  | cons r rs ih =>
    cases hpr : processRecord s r with
    | none => rw [runEvents_cons_none rs hpr] at h; cases h
    | some p =>
      obtain ⟨s1, ev⟩ := p
      rw [runEvents_cons_some rs hpr] at h
      cases hrun : runEvents s1 rs with
      | none => rw [hrun] at h; cases h
      | some q =>
        rw [hrun] at h
        obtain ⟨s2, evs2⟩ := q
        simp only [Option.map_some', Option.some.injEq, Prod.mk.injEq] at h
        obtain ⟨d1, hd1, hled1⟩ := dateAt_processRecord_mono hwf hpr la lo d0 h0
        obtain ⟨d2, hd2, hled2⟩ :=
          ih (wfStore_processRecord hwf hpr) (h.1 ▸ hrun) d1 hd1
        exact ⟨d2, hd2, le_trans hled1 hled2⟩

/-! ## Claim C10: the counters partition the batch -/

/-- C10: whenever `update_database` returns normally, the returned
counters satisfy `n_added + n_updated + n_ignored = length of the input
list`: every record is counted in exactly one counter. -/
theorem upsert_counters_sum (s s' : List Station) (rs : List Record) (a u i : ℕ)
    (h : update_database s rs = some (s', a, u, i)) : a + u + i = rs.length := by
  obtain ⟨evs, hrun, ha, hu, hi⟩ := runEvents_of_update_database h
  rw [ha, hu, hi, countP_three_eq_length, runEvents_length hrun]

theorem upsert_counters_sum_witness :
    update_database [] [rec1] = some ([st1], 1, 0, 0) ∧
      1 + 0 + 0 = ([rec1] : List Record).length :=
  ⟨by decide, upsert_counters_sum [] [st1] [rec1] 1 0 0 (by decide)⟩

/-! ## Claim C8: the validation short-circuit ignores bad records -/

/-- C8: a record whose price field is the empty string, or whose price is
strictly below `0.1`, or whose date field is the empty string, causes no
store mutation, is counted as ignored, and processing continues with the
remaining records. -/
theorem skippable_record_ignored (s : List Station) (r : Record) (rs : List Record)
    (h : r.price = none ∨ (∃ pr, r.price = some pr ∧ pr < mkRat 1 10) ∨
      r.price_date = "") :
    update_database s (r :: rs) =
      (update_database s rs).map fun p => (p.1, p.2.1, p.2.2.1, p.2.2.2 + 1) := by
  have hsk : skips r = true := by
    rcases h with h | ⟨pr, hp, hlt⟩ | h
    · simp [skips, h]
    · simp [skips, hp, hlt]
    · cases hp : r.price with
      | none => simp [skips, hp]
      | some pr => simp [skips, hp, h]
  rw [update_database_cons_some rs (processRecord_of_skips s r hsk)]
  rfl

theorem skippable_record_ignored_witness :
    (rec005.price = none ∨ (∃ pr, rec005.price = some pr ∧ pr < mkRat 1 10) ∨
      rec005.price_date = "") ∧
    update_database [st1] [rec005] =
      (update_database [st1] ([] : List Record)).map
        fun p => (p.1, p.2.1, p.2.2.1, p.2.2.2 + 1) :=
  ⟨Or.inr (Or.inl ⟨mkRat 1 20, rfl, by decide⟩),
    skippable_record_ignored [st1] rec005 []
      (Or.inr (Or.inl ⟨mkRat 1 20, rfl, by decide⟩))⟩

/-! ## Claim C9: address resolution -/

/-- C9: the compact address string, when present, is used verbatim and
takes precedence over any structured address; otherwise the stored
address is street, postal code, and city joined by `", "`, with `", "`
and the country appended exactly when the country field is present.
The row created for such a record stores exactly the resolved string. -/
theorem address_resolution (r : Record) :
    (∀ c, r.addressCompact = some c → resolveAddress r = some c) ∧
    (∀ a, r.addressCompact = none → r.address = some a →
      (a.country = none →
        resolveAddress r = some (a.street ++ ", " ++ a.postal_code ++ ", " ++ a.city)) ∧
      (∀ c, a.country = some c →
        resolveAddress r =
          some (a.street ++ ", " ++ a.postal_code ++ ", " ++ a.city ++ ", " ++ c))) ∧
    (∀ s pr ad dt, r.price = some pr → ¬ pr < mkRat 1 10 → r.price_date ≠ "" →
      resolveAddress r = some ad → normDate r.price_date = some dt →
      findStation s (pyRound6 r.latitude) (pyRound6 r.longitude) = none →
      processRecord s r =
        some (s ++ [⟨freshId s, pyRound6 r.latitude, pyRound6 r.longitude, pr, dt, ad⟩],
          .added (pyRound6 r.latitude) (pyRound6 r.longitude) pr dt)) := by
  refine ⟨?_, ?_, ?_⟩
  · intro c hc
    simp [resolveAddress, hc]
  · intro a hnc ha
    constructor
    · intro hco
      simp only [resolveAddress, hnc, ha, Option.map_some', Option.some.injEq]
      rw [buildAddress, hco]
      simp [String.append_assoc]
    · intro c hco
      simp only [resolveAddress, hnc, ha, Option.map_some', Option.some.injEq]
      rw [buildAddress, hco]
      simp [String.append_assoc]
  · intro s pr ad dt hp h1 h2 had hdt hf
    exact processRecord_insert s r pr ad dt hp h1 h2 had hdt hf

theorem address_resolution_witness :
    resolveAddress rec1 = some "Main St, 10" ∧
    resolveAddress rec3 = some ("123 rue de la rue" ++ ", " ++ "01234" ++ ", " ++ "Laville") ∧
    resolveAddress rec4 =
      some ("1 Main St" ++ ", " ++ "99999" ++ ", " ++ "Atown" ++ ", " ++ "Nowhere") :=
  ⟨(address_resolution rec1).1 "Main St, 10" rfl,
    (((address_resolution rec3).2.1 ⟨"123 rue de la rue", "01234", "Laville", none⟩
      rfl rfl).1) rfl,
    (((address_resolution rec4).2.1 ⟨"1 Main St", "99999", "Atown", some "Nowhere"⟩
      rfl rfl).2) "Nowhere" rfl⟩

/-! ## Claim C1: the insert / update / ignore trichotomy -/

/-- C1: a record processed against the current store is inserted as a new
row (with the record's price, normalised date and resolved address) and
counted as added when no stored row's coordinates equal its rounded
coordinates; when a row exists and the normalised date is strictly newer,
only that row's `fuel_price` and `price_date` are overwritten and the
record is counted as updated; when the date is equal or older, the store
is untouched and the record is counted as ignored. -/
theorem upsert_trichotomy (s : List Station) (r : Record) (rs : List Record) (pr : ℚ)
    (ad dt : String) (hp : r.price = some pr) (h1 : ¬ pr < mkRat 1 10)
    (h2 : r.price_date ≠ "") (had : resolveAddress r = some ad)
    (hdt : normDate r.price_date = some dt) :
    (findStation s (pyRound6 r.latitude) (pyRound6 r.longitude) = none →
      update_database s (r :: rs) =
        (update_database
            (s ++ [⟨freshId s, pyRound6 r.latitude, pyRound6 r.longitude, pr, dt, ad⟩])
            rs).map fun p => (p.1, p.2.1 + 1, p.2.2.1, p.2.2.2)) ∧
    (∀ st, findStation s (pyRound6 r.latitude) (pyRound6 r.longitude) = some st →
      st.price_date < dt →
      update_database s (r :: rs) =
        (update_database (applyUpdate st.id pr dt s) rs).map
          fun p => (p.1, p.2.1, p.2.2.1 + 1, p.2.2.2)) ∧
    (∀ st, findStation s (pyRound6 r.latitude) (pyRound6 r.longitude) = some st →
      dt ≤ st.price_date →
      update_database s (r :: rs) =
        (update_database s rs).map fun p => (p.1, p.2.1, p.2.2.1, p.2.2.2 + 1)) := by
  refine ⟨?_, ?_, ?_⟩
  · intro hf
    rw [update_database_cons_some rs (processRecord_insert s r pr ad dt hp h1 h2 had hdt hf)]
    rfl
  · intro st hf hlt
    have hgt : pyStrLe dt st.price_date = false := (pyStrLe_eq_false_iff _ _).mpr hlt
    rw [update_database_cons_some rs
      (processRecord_update s r pr ad dt st hp h1 h2 had hdt hf hgt)]
    rfl
  · intro st hf hle
    have hle2 : pyStrLe dt st.price_date = true := (pyStrLe_iff _ _).mpr hle
    rw [update_database_cons_some rs
      (processRecord_ignore_stale s r pr ad dt st hp h1 h2 had hdt hf hle2)]
    rfl

theorem upsert_trichotomy_witness :
    rec1.price = some (mkRat 9 10) ∧ ¬ mkRat 9 10 < mkRat 1 10 ∧
    rec1.price_date ≠ "" ∧ resolveAddress rec1 = some "Main St, 10" ∧
    normDate rec1.price_date = some "2024-01-01" ∧
    update_database [] [rec1] =
      (update_database
          ([] ++ [⟨freshId [], pyRound6 rec1.latitude, pyRound6 rec1.longitude,
            mkRat 9 10, "2024-01-01", "Main St, 10"⟩]) []).map
        fun p => (p.1, p.2.1 + 1, p.2.2.1, p.2.2.2) :=
  ⟨rfl, by decide, by decide, rfl, by decide,
    (upsert_trichotomy [] rec1 [] (mkRat 9 10) "Main St, 10" "2024-01-01"
      rfl (by decide) (by decide) rfl (by decide)).1 (by decide)⟩

/-! ## Claim C7: updates only touch price and date -/

theorem processRecord_preserves_rows {s : List Station} {r : Record} {s1 : List Station}
    {ev : Ev} (h : processRecord s r = some (s1, ev)) :
    s.length ≤ s1.length ∧ ∀ k (hk : k < s.length) (hk1 : k < s1.length),
      (s1.get ⟨k, hk1⟩).id = (s.get ⟨k, hk⟩).id ∧
      (s1.get ⟨k, hk1⟩).latitude = (s.get ⟨k, hk⟩).latitude ∧
      (s1.get ⟨k, hk1⟩).longitude = (s.get ⟨k, hk⟩).longitude ∧
      (s1.get ⟨k, hk1⟩).address = (s.get ⟨k, hk⟩).address := by
  rcases processRecord_some_cases s r s1 ev h with ⟨_, rfl, _⟩ |
    ⟨pr, ad, dt, hp, h1, h2, had, hdt, hcase⟩
  · exact ⟨le_refl _, fun k hk hk1 => ⟨rfl, rfl, rfl, rfl⟩⟩
  · rcases hcase with ⟨hf, rfl, _⟩ | ⟨st, hf, hcase2⟩
    · refine ⟨by simp, fun k hk hk1 => ?_⟩
      simp [List.get_eq_getElem, List.getElem_append_left hk]
    · rcases hcase2 with ⟨_, rfl, _⟩ | ⟨hgt, rfl, _⟩
      · exact ⟨le_refl _, fun k hk hk1 => ⟨rfl, rfl, rfl, rfl⟩⟩
      · refine ⟨by simp [applyUpdate], fun k hk hk1 => ?_⟩
        simp only [List.get_eq_getElem, applyUpdate, List.getElem_map]
        split_ifs <;> simp

/-- C7: an accepted update overwrites only `fuel_price` and `price_date`;
across any run of `update_database`, every row present at the start is
still present (at its position), with `id`, `latitude`, `longitude` and
`address` unchanged — later observations never change a stored address. -/
theorem station_identity_stable (s s' : List Station) (rs : List Record) (a u i : ℕ)
    (h : update_database s rs = some (s', a, u, i)) :
    s.length ≤ s'.length ∧ ∀ k (hk : k < s.length) (hk1 : k < s'.length),
      (s'.get ⟨k, hk1⟩).id = (s.get ⟨k, hk⟩).id ∧
      (s'.get ⟨k, hk1⟩).latitude = (s.get ⟨k, hk⟩).latitude ∧
      (s'.get ⟨k, hk1⟩).longitude = (s.get ⟨k, hk⟩).longitude ∧
      (s'.get ⟨k, hk1⟩).address = (s.get ⟨k, hk⟩).address := by
  obtain ⟨evs, hrun, -⟩ := runEvents_of_update_database h
  clear h
  induction rs generalizing s evs with
  | nil =>
    simp only [runEvents, Option.some.injEq, Prod.mk.injEq] at hrun
    obtain ⟨rfl, rfl⟩ := hrun
    exact ⟨le_refl _, fun k hk hk1 => ⟨rfl, rfl, rfl, rfl⟩⟩
  | cons r rs ih =>
    cases hpr : processRecord s r with
    | none => rw [runEvents_cons_none rs hpr] at hrun; cases hrun
    | some p =>
      obtain ⟨s1, ev⟩ := p
      rw [runEvents_cons_some rs hpr] at hrun
      cases hrun2 : runEvents s1 rs with
      | none => rw [hrun2] at hrun; cases hrun
      | some q =>
        rw [hrun2] at hrun
        obtain ⟨s2, evs2⟩ := q
        simp only [Option.map_some', Option.some.injEq, Prod.mk.injEq] at hrun
        obtain ⟨hlen1, hrow1⟩ := processRecord_preserves_rows hpr
        have hrun3 : runEvents s1 rs = some (s', evs2) := by rw [hrun2, hrun.1]
        obtain ⟨hlen2, hrow2⟩ := ih s1 evs2 hrun3
        refine ⟨le_trans hlen1 hlen2, fun k hk hk1 => ?_⟩
        have hk2 : k < s1.length := lt_of_lt_of_le hk hlen1
        obtain ⟨e1, e2, e3, e4⟩ := hrow1 k hk hk2
        obtain ⟨f1, f2, f3, f4⟩ := hrow2 k hk2 hk1
        exact ⟨f1.trans e1, f2.trans e2, f3.trans e3, f4.trans e4⟩

theorem station_identity_stable_witness :
    update_database [st1] [rec2] = some ([st1b], 0, 1, 0) ∧
      (([st1b] : List Station).get ⟨0, by decide⟩).id =
        (([st1] : List Station).get ⟨0, by decide⟩).id ∧
      (([st1b] : List Station).get ⟨0, by decide⟩).latitude =
        (([st1] : List Station).get ⟨0, by decide⟩).latitude ∧
      (([st1b] : List Station).get ⟨0, by decide⟩).longitude =
        (([st1] : List Station).get ⟨0, by decide⟩).longitude ∧
      (([st1b] : List Station).get ⟨0, by decide⟩).address =
        (([st1] : List Station).get ⟨0, by decide⟩).address :=
  ⟨by decide,
    (station_identity_stable [st1] [st1b] [rec2] 0 1 0 (by decide)).2 0
      (by decide) (by decide)⟩

/-! ## Claim C2: the stored date is the maximum of the accepted dates -/

theorem maxAccum_none_cons (a : String) (A : List String) :
    maxAccum none (a :: A) = maxAccum (some a) A := by
  simp [maxAccum]

theorem maxAccum_some_cons (b a : String) (A : List String) :
    maxAccum (some b) (a :: A) = maxAccum (some (max b a)) A := by
  simp [maxAccum]

theorem maxAccum_some_eq_foldl (A : List String) (b : String) :
    maxAccum (some b) A = some (A.foldl max b) := by
  induction A generalizing b with
  | nil => rfl
  | cons a A ih => rw [maxAccum_some_cons, ih, List.foldl_cons]

theorem le_foldl_max (A : List String) (b : String) : b ≤ A.foldl max b := by
  induction A generalizing b with
  | nil => exact le_refl b
  | cons a A ih =>
    rw [List.foldl_cons]
    exact le_trans (le_max_left b a) (ih (max b a))

theorem foldl_max_mem (A : List String) (b : String) :
    A.foldl max b = b ∨ A.foldl max b ∈ A := by
  induction A generalizing b with
  | nil => exact Or.inl rfl
  | cons a A ih =>
    rw [List.foldl_cons]
    rcases ih (max b a) with h | h
    · rcases max_choice b a with hm | hm
      · exact Or.inl (by rw [h, hm])
      · exact Or.inr (by rw [h, hm]; exact List.mem_cons_self a A)
    · exact Or.inr (List.mem_cons_of_mem a h)

theorem foldl_max_ub (A : List String) (b a : String) : a ∈ A → a ≤ A.foldl max b := by
  induction A generalizing b with
  | nil => intro h; cases h
  | cons x A ih =>
    intro h
    rw [List.foldl_cons]
    rcases List.mem_cons.mp h with h2 | h2
    · rw [h2]
      exact le_trans (le_max_right b x) (le_foldl_max A (max b x))
    · exact ih (max b x) h2

/-- The stored date left by a non-empty list of accepted dates each newer
than whatever was stored before them is their maximum. -/
theorem maxAccum_spec (d0? : Option String) (A : List String) (hA : A ≠ [])
    (hgt : ∀ a ∈ A, ∀ d0, d0? = some d0 → d0 < a) :
    ∃ d1, maxAccum d0? A = some d1 ∧ d1 ∈ A ∧ ∀ a ∈ A, a ≤ d1 := by
  cases A with
  | nil => exact absurd rfl hA
  | cons a A =>
    have key : maxAccum d0? (a :: A) = some (A.foldl max a) := by
      cases d0? with
      | none => rw [maxAccum_none_cons, maxAccum_some_eq_foldl]
      | some d0 =>
        have hlt : d0 < a := hgt a (List.mem_cons_self a A) d0 rfl
        rw [maxAccum_some_cons, max_eq_right (le_of_lt hlt), maxAccum_some_eq_foldl]
    refine ⟨A.foldl max a, key, ?_, ?_⟩
    · rcases foldl_max_mem A a with h | h
      · rw [h]; exact List.mem_cons_self a A
      · exact List.mem_cons_of_mem a h
    · intro x hx
      rcases List.mem_cons.mp hx with rfl | hx
      · exact le_foldl_max A x
      · exact foldl_max_ub A a x hx

theorem acceptedDates_cons_ignored (evs : List Ev) (la lo : ℚ) :
    acceptedDates (.ignored :: evs) la lo = acceptedDates evs la lo := by
  simp [acceptedDates]

theorem acceptedDates_cons_added (la0 lo0 pr : ℚ) (dt : String) (evs : List Ev) (la lo : ℚ) :
    acceptedDates (.added la0 lo0 pr dt :: evs) la lo =
      if la0 = la ∧ lo0 = lo then dt :: acceptedDates evs la lo
      else acceptedDates evs la lo := by
  by_cases h : la0 = la ∧ lo0 = lo <;> simp [acceptedDates, h]

theorem acceptedDates_cons_updated (la0 lo0 pr : ℚ) (dt : String) (evs : List Ev) (la lo : ℚ) :
    acceptedDates (.updated la0 lo0 pr dt :: evs) la lo =
      if la0 = la ∧ lo0 = lo then dt :: acceptedDates evs la lo
      else acceptedDates evs la lo := by
  by_cases h : la0 = la ∧ lo0 = lo <;> simp [acceptedDates, h]

theorem dateAt_of_findStation_none {s : List Station} {la lo : ℚ}
    (h : findStation s la lo = none) : dateAt s la lo = none := by
  rw [dateAt, h]; rfl

theorem dateAt_of_findStation_some {s : List Station} {la lo : ℚ} {st : Station}
    (h : findStation s la lo = some st) : dateAt s la lo = some st.price_date := by
  rw [dateAt, h]; rfl

theorem dateAt_append_new {s : List Station} {la lo : ℚ} {x : Station}
    (hf : findStation s la lo = none) (h1 : x.latitude = la) (h2 : x.longitude = lo) :
    dateAt (s ++ [x]) la lo = some x.price_date := by
  rw [dateAt, findStation_append_none _ hf, findStation_singleton, if_pos ⟨h1, h2⟩]
  rfl

theorem dateAt_applyUpdate_found {s : List Station} {la lo : ℚ} {st : Station}
    (pr : ℚ) (dt : String) (hf : findStation s la lo = some st) :
    dateAt (applyUpdate st.id pr dt s) la lo = some dt := by
  rw [dateAt, findStation_applyUpdate, hf]
  simp

/-- Master invariant of one run: at every coordinate pair, the final
stored date is the fold of `max` over the accepted dates starting from
the initially stored date, and every accepted date is strictly newer than
the initially stored date. -/
theorem dateAt_runEvents_maxAccum {s : List Station} {rs : List Record} {s' : List Station}
    {evs : List Ev} (hwf : wfStore s) (h : runEvents s rs = some (s', evs)) (la lo : ℚ) :
    dateAt s' la lo = maxAccum (dateAt s la lo) (acceptedDates evs la lo) ∧
    ∀ x ∈ acceptedDates evs la lo, ∀ d0, dateAt s la lo = some d0 → d0 < x := by
  induction rs generalizing s evs la lo with
  | nil =>
    simp only [runEvents, Option.some.injEq, Prod.mk.injEq] at h
    obtain ⟨rfl, rfl⟩ := h
    exact ⟨rfl, by simp [acceptedDates]⟩
  | cons r rs ih =>
    cases hpr : processRecord s r with
    | none => rw [runEvents_cons_none rs hpr] at h; cases h
    | some p =>
      obtain ⟨s1, ev⟩ := p
      rw [runEvents_cons_some rs hpr] at h
      cases hrun : runEvents s1 rs with
      | none => rw [hrun] at h; cases h
      | some q =>
        rw [hrun] at h
        obtain ⟨s2, evs2⟩ := q
        simp only [Option.map_some', Option.some.injEq, Prod.mk.injEq] at h
        obtain ⟨rfl, rfl⟩ := h
        have hwf1 : wfStore s1 := wfStore_processRecord hwf hpr
        obtain ⟨ihm, ihgt⟩ := ih hwf1 hrun la lo
        rcases processRecord_some_cases s r s1 ev hpr with ⟨_, rfl, rfl⟩ |
          ⟨pr, ad, dt, hp, h1, h2, had, hdt, hcase⟩
        · rw [acceptedDates_cons_ignored]
          exact ⟨ihm, ihgt⟩
        · rcases hcase with ⟨hf, rfl, rfl⟩ | ⟨st, hf, hcase2⟩
          · -- insert
            rw [acceptedDates_cons_added]
            by_cases hkey : pyRound6 r.latitude = la ∧ pyRound6 r.longitude = lo
            · obtain ⟨hla, hlo⟩ := hkey
              subst hla
              subst hlo
              have h0 : dateAt s (pyRound6 r.latitude) (pyRound6 r.longitude) = none :=
                dateAt_of_findStation_none hf
              have h1n : dateAt (s ++ [⟨freshId s, pyRound6 r.latitude, pyRound6 r.longitude,
                  pr, dt, ad⟩]) (pyRound6 r.latitude) (pyRound6 r.longitude) = some dt :=
                dateAt_append_new hf rfl rfl
              rw [if_pos ⟨rfl, rfl⟩, h0, maxAccum_none_cons, ihm, h1n]
              refine ⟨rfl, ?_⟩
              intro x hx d0 hd0
              cases hd0
            · have hne : (la, lo) ≠ recKey r := by
                intro hc
                apply hkey
                rw [recKey] at hc
                exact ⟨(congrArg Prod.fst hc).symm, (congrArg Prod.snd hc).symm⟩
              have hfr := obsAt_processRecord_of_ne hwf hpr la lo hne
              have hfr2 : dateAt (s ++ [⟨freshId s, pyRound6 r.latitude,
                  pyRound6 r.longitude, pr, dt, ad⟩]) la lo = dateAt s la lo := by
                rw [dateAt_eq_obsAt, hfr, ← dateAt_eq_obsAt]
              rw [if_neg hkey]
              rw [hfr2] at ihm ihgt
              exact ⟨ihm, ihgt⟩
          · rcases hcase2 with ⟨hle, rfl, rfl⟩ | ⟨hgt, rfl, rfl⟩
            · rw [acceptedDates_cons_ignored]
              exact ⟨ihm, ihgt⟩
            · -- update
              rw [acceptedDates_cons_updated]
              by_cases hkey : pyRound6 r.latitude = la ∧ pyRound6 r.longitude = lo
              · obtain ⟨hla, hlo⟩ := hkey
                subst hla
                subst hlo
                have h0 : dateAt s (pyRound6 r.latitude) (pyRound6 r.longitude) =
                    some st.price_date := dateAt_of_findStation_some hf
                have h1n : dateAt (applyUpdate st.id pr dt s)
                    (pyRound6 r.latitude) (pyRound6 r.longitude) = some dt :=
                  dateAt_applyUpdate_found pr dt hf
                have hlt : st.price_date < dt := (pyStrLe_eq_false_iff _ _).mp hgt
                rw [if_pos ⟨rfl, rfl⟩, h0, maxAccum_some_cons,
                  max_eq_right (le_of_lt hlt), ihm, h1n]
                refine ⟨rfl, ?_⟩
                intro x hx d0 hd0
                obtain rfl : d0 = st.price_date := by
                  simpa using hd0.symm
                rcases List.mem_cons.mp hx with rfl | hx
                · exact hlt
                · exact lt_trans hlt (ihgt x hx dt h1n)
              · have hne : (la, lo) ≠ recKey r := by
                  intro hc
                  apply hkey
                  rw [recKey] at hc
                  exact ⟨(congrArg Prod.fst hc).symm, (congrArg Prod.snd hc).symm⟩
                have hfr := obsAt_processRecord_of_ne hwf hpr la lo hne
                have hfr2 : dateAt (applyUpdate st.id pr dt s) la lo = dateAt s la lo := by
                  rw [dateAt_eq_obsAt, hfr, ← dateAt_eq_obsAt]
                rw [if_neg hkey]
                rw [hfr2] at ihm ihgt
                exact ⟨ihm, ihgt⟩

/-- C2: for every station the stored `price_date` never decreases — an
update is applied only when the incoming normalised date is strictly
later — and after a run touching one coordinate pair the stored date is
the maximum of the dates of the observations accepted for that pair. -/
theorem price_date_monotone_and_max (s s' : List Station) (rs : List Record)
    (a u i : ℕ) (evs : List Ev) (hwf : wfStore s)
    (h : update_database s rs = some (s', a, u, i))
    (hev : runEvents s rs = some (s', evs)) (la lo : ℚ) :
    (∀ d0 d1, dateAt s la lo = some d0 → dateAt s' la lo = some d1 → d0 ≤ d1) ∧
    (acceptedDates evs la lo ≠ [] →
      ∃ d1, dateAt s' la lo = some d1 ∧ d1 ∈ acceptedDates evs la lo ∧
        ∀ x ∈ acceptedDates evs la lo, x ≤ d1) := by
  obtain ⟨hm, hgt⟩ := dateAt_runEvents_maxAccum hwf hev la lo
  constructor
  · intro d0 d1 h0 h1
    rw [hm, h0, maxAccum_some_eq_foldl] at h1
    have h2 : (acceptedDates evs la lo).foldl max d0 = d1 := by simpa using h1
    rw [← h2]
    exact le_foldl_max _ d0
  · intro hA
    obtain ⟨d1, hd1, hmem, hub⟩ :=
      maxAccum_spec (dateAt s la lo) (acceptedDates evs la lo) hA hgt
    refine ⟨d1, ?_, hmem, hub⟩
    rw [hm, hd1]

theorem price_date_monotone_and_max_witness :
    wfStore ([] : List Station) ∧
    update_database [] [rec1, rec2] = some ([st1b], 1, 1, 0) ∧
    runEvents [] [rec1, rec2] = some ([st1b],
      [Ev.added (mkRat 451 10) (mkRat 41 5) (mkRat 9 10) "2024-01-01",
       Ev.updated (mkRat 451 10) (mkRat 41 5) (mkRat 11 10) "2024-01-02"]) ∧
    (acceptedDates
        [Ev.added (mkRat 451 10) (mkRat 41 5) (mkRat 9 10) "2024-01-01",
         Ev.updated (mkRat 451 10) (mkRat 41 5) (mkRat 11 10) "2024-01-02"]
        (mkRat 451 10) (mkRat 41 5) ≠ [] →
      ∃ d1, dateAt [st1b] (mkRat 451 10) (mkRat 41 5) = some d1 ∧
        d1 ∈ acceptedDates
          [Ev.added (mkRat 451 10) (mkRat 41 5) (mkRat 9 10) "2024-01-01",
           Ev.updated (mkRat 451 10) (mkRat 41 5) (mkRat 11 10) "2024-01-02"]
          (mkRat 451 10) (mkRat 41 5) ∧
        ∀ x ∈ acceptedDates
          [Ev.added (mkRat 451 10) (mkRat 41 5) (mkRat 9 10) "2024-01-01",
           Ev.updated (mkRat 451 10) (mkRat 41 5) (mkRat 11 10) "2024-01-02"]
          (mkRat 451 10) (mkRat 41 5), x ≤ d1) :=
  ⟨by decide, by decide, by decide,
    (price_date_monotone_and_max [] [st1b] [rec1, rec2] 1 1 0
      [Ev.added (mkRat 451 10) (mkRat 41 5) (mkRat 9 10) "2024-01-01",
       Ev.updated (mkRat 451 10) (mkRat 41 5) (mkRat 11 10) "2024-01-02"]
      (by decide) (by decide) (by decide) (mkRat 451 10) (mkRat 41 5)).2⟩

/-! ## Claim C5: re-ingesting a batch is idempotent -/

theorem valid_record_date_bounded {s : List Station} {rs : List Record}
    {s' : List Station} {evs : List Ev} (hwf : wfStore s)
    (h : runEvents s rs = some (s', evs)) :
    ∀ r ∈ rs, skips r = false →
      ∃ pr ad dt, r.price = some pr ∧ resolveAddress r = some ad ∧
        normDate r.price_date = some dt ∧
        ∃ d1, dateAt s' (pyRound6 r.latitude) (pyRound6 r.longitude) = some d1 ∧
          dt ≤ d1 := by
  induction rs generalizing s evs with
  | nil => intro r hr; cases hr
  | cons r0 rs ih =>
    intro r hr hsk
    cases hpr : processRecord s r0 with
    | none => rw [runEvents_cons_none rs hpr] at h; cases h
    | some p =>
      obtain ⟨s1, ev⟩ := p
      rw [runEvents_cons_some rs hpr] at h
      cases hrun : runEvents s1 rs with
      | none => rw [hrun] at h; cases h
      | some q =>
        rw [hrun] at h
        obtain ⟨s2, evs2⟩ := q
        simp only [Option.map_some', Option.some.injEq, Prod.mk.injEq] at h
        obtain ⟨rfl, rfl⟩ := h
        have hwf1 : wfStore s1 := wfStore_processRecord hwf hpr
        rcases List.mem_cons.mp hr with rfl | hr2
        · rcases processRecord_some_cases s r s1 ev hpr with ⟨hskt, _, _⟩ |
            ⟨pr, ad, dt, hp, h1, h2, had, hdt, hcase⟩
          · rw [hskt] at hsk; cases hsk
          · refine ⟨pr, ad, dt, hp, had, hdt, ?_⟩
            rcases hcase with ⟨hf, hs1, _⟩ | ⟨st, hf, hcase2⟩
            · have hd : dateAt s1 (pyRound6 r.latitude) (pyRound6 r.longitude) =
                  some dt := by
                rw [hs1]
                exact dateAt_append_new hf rfl rfl
              obtain ⟨d1, hd1, hle⟩ := dateAt_runEvents_mono hwf1 hrun _ _ dt hd
              exact ⟨d1, hd1, hle⟩
            · rcases hcase2 with ⟨hle, hs1, _⟩ | ⟨hgt, hs1, _⟩
              · have hd : dateAt s1 (pyRound6 r.latitude) (pyRound6 r.longitude) =
                    some st.price_date := by
                  rw [hs1]
                  exact dateAt_of_findStation_some hf
                obtain ⟨d1, hd1, hle2⟩ :=
                  dateAt_runEvents_mono hwf1 hrun _ _ st.price_date hd
                exact ⟨d1, hd1, le_trans ((pyStrLe_iff _ _).mp hle) hle2⟩
              · have hd : dateAt s1 (pyRound6 r.latitude) (pyRound6 r.longitude) =
                    some dt := by
                  rw [hs1]
                  exact dateAt_applyUpdate_found pr dt hf
                obtain ⟨d1, hd1, hle⟩ := dateAt_runEvents_mono hwf1 hrun _ _ dt hd
                exact ⟨d1, hd1, hle⟩
        · exact ih hwf1 hrun r hr2 hsk

theorem rerun_all_ignored {s1 : List Station} {rs : List Record}
    (hbound : ∀ r ∈ rs, skips r = false →
      ∃ pr ad dt, r.price = some pr ∧ resolveAddress r = some ad ∧
        normDate r.price_date = some dt ∧
        ∃ d1, dateAt s1 (pyRound6 r.latitude) (pyRound6 r.longitude) = some d1 ∧
          dt ≤ d1) :
    update_database s1 rs = some (s1, 0, 0, rs.length) := by
  induction rs with
  | nil => rfl
  | cons r rs ih =>
    have htail := ih fun r2 hr2 => hbound r2 (List.mem_cons_of_mem r hr2)
    cases hsk : skips r with
    | true =>
      rw [update_database_cons_some rs (processRecord_of_skips s1 r hsk), htail]
      rfl
    | false =>
      obtain ⟨pr, ad, dt, hp, had, hdt, d1, hd1, hle⟩ :=
        hbound r (List.mem_cons_self r rs) hsk
      obtain ⟨pr2, hp2, h1, h2⟩ := (skips_eq_false_iff r).mp hsk
      have hpp : pr2 = pr := by
        rw [hp] at hp2
        simpa using hp2.symm
      rw [hpp] at h1
      cases hf : findStation s1 (pyRound6 r.latitude) (pyRound6 r.longitude) with
      | none =>
        rw [dateAt_of_findStation_none hf] at hd1
        cases hd1
      | some st =>
        have hst : st.price_date = d1 := by
          have h3 := dateAt_of_findStation_some hf
          rw [h3] at hd1
          simpa using hd1
        have hle2 : pyStrLe dt st.price_date = true :=
          (pyStrLe_iff _ _).mpr (hst ▸ hle)
        rw [update_database_cons_some rs
          (processRecord_ignore_stale s1 r pr ad dt st hp h1 h2 had hdt hf hle2), htail]
        rfl

/-- C5: running `update_database` twice on the same batch yields the same
final store as running it once; the second run reports zero added and
zero updated, with every record of the batch counted as ignored. -/
theorem reingest_idempotent (s s1 : List Station) (rs : List Record) (a u i : ℕ)
    (hwf : wfStore s) (h : update_database s rs = some (s1, a, u, i)) :
    update_database s1 rs = some (s1, 0, 0, rs.length) := by
  obtain ⟨evs, hrun, -⟩ := runEvents_of_update_database h
  exact rerun_all_ignored (valid_record_date_bounded hwf hrun)

theorem reingest_idempotent_witness :
    wfStore ([] : List Station) ∧
    update_database [] [rec1, rec2] = some ([st1b], 1, 1, 0) ∧
    update_database [st1b] [rec1, rec2] = some ([st1b], 0, 0, 2) :=
  ⟨by decide, by decide, by
    have h := reingest_idempotent [] [st1b] [rec1, rec2] 1 1 0 (by decide) (by decide)
    simpa using h⟩

/-! ## Claim C3: uniqueness of rounded coordinate pairs -/

/-- C3 as stated is false: from a store whose rows have pairwise distinct
rounded coordinate pairs (here a single row, stored unrounded), one run
of `update_database` can create a second row whose rounded pair collides
with the first — the lookup compares the record's rounded pair against
the raw stored values, so an unrounded stored coordinate is missed. -/
theorem rounded_pair_unique_cex :
    (([stU] : List Station).map roundedKey).Nodup ∧
    update_database [stU] [recU] = some ([stU, stUnew], 1, 0, 0) ∧
    ¬ (([stU, stUnew] : List Station).map roundedKey).Nodup := by
  refine ⟨by decide, by decide, by decide⟩

theorem roundStable_processRecord {s : List Station} {r : Record} {s1 : List Station}
    {ev : Ev} (hrs : roundStable s) (hnd : (s.map stKey).Nodup)
    (h : processRecord s r = some (s1, ev)) :
    roundStable s1 ∧ (s1.map stKey).Nodup := by
  rcases processRecord_some_cases s r s1 ev h with ⟨_, rfl, _⟩ |
    ⟨pr, ad, dt, hp, h1, h2, had, hdt, hcase⟩
  · exact ⟨hrs, hnd⟩
  · rcases hcase with ⟨hf, rfl, _⟩ | ⟨st, hf, hcase2⟩
    · constructor
      · intro st hst
        rcases List.mem_append.mp hst with hst | hst
        · exact hrs st hst
        · rw [List.mem_singleton] at hst
          subst hst
          exact ⟨pyRound6_idem r.latitude, pyRound6_idem r.longitude⟩
      · rw [List.map_append, List.nodup_append]
        refine ⟨hnd, List.nodup_singleton _, ?_⟩
        intro a ha hb
        simp only [List.map_cons, List.map_nil, List.mem_singleton] at hb
        obtain ⟨st, hst, hsta⟩ := List.mem_map.mp ha
        rw [findStation_eq_none_iff] at hf
        apply hf st hst
        have hkey : stKey st = (pyRound6 r.latitude, pyRound6 r.longitude) := by
          rw [hsta, hb]
          rfl
        exact ⟨congrArg Prod.fst hkey, congrArg Prod.snd hkey⟩
    · rcases hcase2 with ⟨_, rfl, _⟩ | ⟨hgt, rfl, _⟩
      · exact ⟨hrs, hnd⟩
      · constructor
        · intro st2 hst2
          rw [applyUpdate] at hst2
          obtain ⟨t, ht, hts⟩ := List.mem_map.mp hst2
          have hco : st2.latitude = t.latitude ∧ st2.longitude = t.longitude := by
            rw [← hts]
            by_cases hid : t.id = st.id <;> simp [hid]
          obtain ⟨hrt1, hrt2⟩ := hrs t ht
          rw [hco.1, hco.2]
          exact ⟨hrt1, hrt2⟩
        · rw [map_stKey_applyUpdate]
          exact hnd

theorem roundStable_runEvents {s : List Station} {rs : List Record} {s' : List Station}
    {evs : List Ev} (hrs : roundStable s) (hnd : (s.map stKey).Nodup)
    (hrun : runEvents s rs = some (s', evs)) :
    roundStable s' ∧ (s'.map stKey).Nodup := by
  induction rs generalizing s evs with
  | nil =>
    simp only [runEvents, Option.some.injEq, Prod.mk.injEq] at hrun
    obtain ⟨rfl, rfl⟩ := hrun
    exact ⟨hrs, hnd⟩
  | cons r rs ih =>
    cases hpr : processRecord s r with
    | none => rw [runEvents_cons_none rs hpr] at hrun; cases hrun
    | some p =>
      obtain ⟨s1, ev⟩ := p
      rw [runEvents_cons_some rs hpr] at hrun
      cases hrun2 : runEvents s1 rs with
      | none => rw [hrun2] at hrun; cases hrun
      | some q =>
        rw [hrun2] at hrun
        obtain ⟨s2, evs2⟩ := q
        simp only [Option.map_some', Option.some.injEq, Prod.mk.injEq] at hrun
        obtain ⟨hone, hone2⟩ := roundStable_processRecord hrs hnd hpr
        have hrun3 : runEvents s1 rs = some (s', evs2) := by rw [hrun2, hrun.1]
        exact ih hone hone2 hrun3

/-- C3 amended: when every stored coordinate is already a fixed point of
the 6-decimal rounding (true of every row this engine writes) and the
stored pairs are pairwise distinct, every store reachable by
`update_database` again has rounded-stable coordinates and pairwise
distinct rounded coordinate pairs. -/
theorem rounded_pair_unique_amended (s s' : List Station) (rs : List Record)
    (a u i : ℕ) (hrs : roundStable s) (hnd : (s.map stKey).Nodup)
    (h : update_database s rs = some (s', a, u, i)) :
    roundStable s' ∧ (s'.map roundedKey).Nodup := by
  obtain ⟨evs, hrun, -⟩ := runEvents_of_update_database h
  have key : roundStable s' ∧ (s'.map stKey).Nodup := roundStable_runEvents hrs hnd hrun
  refine ⟨key.1, ?_⟩
  have hmap : s'.map roundedKey = s'.map stKey := by
    apply List.map_congr_left
    intro st hst
    obtain ⟨h1, h2⟩ := key.1 st hst
    rw [roundedKey, stKey, h1, h2]
  rw [hmap]
  exact key.2

theorem rounded_pair_unique_amended_witness :
    roundStable [st1] ∧ (([st1] : List Station).map stKey).Nodup ∧
    update_database [st1] [rec2] = some ([st1b], 0, 1, 0) ∧
    (roundStable [st1b] ∧ (([st1b] : List Station).map roundedKey).Nodup) :=
  ⟨by decide, by decide, by decide,
    rounded_pair_unique_amended [st1] [st1b] [rec2] 0 1 0 (by decide) (by decide)
      (by decide)⟩

/-! ## Claim C4: unparseable dates abort the batch -/

/-- C4 as stated is false: a batch holding a record with a non-empty,
unparseable date is not committed with that record merely counted as
ignored — the run aborts (the `ValueError` of `strptime` is uncaught),
the following records are never processed, and no commit happens. -/
theorem unparseable_date_aborts_cex :
    update_database [] [recBadDate, rec1] = none := by decide

/-- C4 amended: a record whose fields pass the emptiness and price checks
but whose non-empty date is not parseable as `dd/mm/yyyy` makes
`update_database` raise: the run returns no result — the batch is not
committed and the store is left unchanged — and the records after it are
not processed at all. -/
theorem unparseable_date_aborts (s : List Station) (r : Record) (rs : List Record)
    (hsk : skips r = false) (hdt : normDate r.price_date = none) :
    update_database s (r :: rs) = none := by
  have habort : aborts r = true := by
    rw [aborts, hsk]
    simp [hdt]
  exact update_database_cons_none rs (processRecord_of_aborts s r habort)

theorem unparseable_date_aborts_witness :
    skips recBadDate = false ∧ normDate recBadDate.price_date = none ∧
    update_database [st1] [recBadDate, rec1] = none :=
  ⟨by decide, by decide,
    unparseable_date_aborts [st1] recBadDate [rec1] (by decide) (by decide)⟩

/-! ## Claim C6: dependence on arrival order -/

/-- C6 as stated is false: two records with the same rounded coordinates
and different dates give different counters and a different final store
depending on their arrival order (the first-seen address wins, and a
not-strictly-newer second record is ignored rather than updated). -/
theorem order_dependent_cex :
    ([rec1, rec2] : List Record).Perm [rec2, rec1] ∧
    update_database [] [rec1, rec2] = some ([st1b], 1, 1, 0) ∧
    update_database [] [rec2, rec1] = some ([st2b], 1, 0, 1) ∧
    update_database [] [rec1, rec2] ≠ update_database [] [rec2, rec1] := by
  refine ⟨List.Perm.swap rec2 rec1 [], by decide, by decide, by decide⟩

theorem processRecord_none_iff (s : List Station) (r : Record) :
    processRecord s r = none ↔ aborts r = true := by
  constructor
  · intro h
    cases hsk : skips r with
    | true => rw [processRecord_of_skips s r hsk] at h; cases h
    | false =>
      obtain ⟨pr, hp, h1, h2⟩ := (skips_eq_false_iff r).mp hsk
      cases had : resolveAddress r with
      | none => rw [aborts, hsk]; simp [had]
      | some ad =>
        cases hdt : normDate r.price_date with
        | none => rw [aborts, hsk]; simp [hdt]
        | some dt =>
          cases hf : findStation s (pyRound6 r.latitude) (pyRound6 r.longitude) with
          | none =>
            rw [processRecord_insert s r pr ad dt hp h1 h2 had hdt hf] at h
            cases h
          | some st =>
            cases hle : pyStrLe dt st.price_date with
            | true =>
              rw [processRecord_ignore_stale s r pr ad dt st hp h1 h2 had hdt hf hle] at h
              cases h
            | false =>
              rw [processRecord_update s r pr ad dt st hp h1 h2 had hdt hf hle] at h
              cases h
  · exact processRecord_of_aborts s r

/-- Whether a run aborts depends only on the records, not on the store or
on their order: the run raises exactly when some record aborts. -/
theorem update_database_none_iff (s : List Station) (rs : List Record) :
    update_database s rs = none ↔ ∃ r ∈ rs, aborts r = true := by
  induction rs generalizing s with
  | nil => simp [update_database]
  | cons r rs ih =>
    cases hpr : processRecord s r with
    | none =>
      rw [update_database_cons_none rs hpr]
      exact iff_of_true rfl ⟨r, List.mem_cons_self r rs, (processRecord_none_iff s r).mp hpr⟩
    | some p =>
      obtain ⟨s1, ev⟩ := p
      rw [update_database_cons_some rs hpr]
      have habort : aborts r = false := by
        cases hab : aborts r with
        | false => rfl
        | true =>
          rw [processRecord_of_aborts s r hab] at hpr
          cases hpr
      constructor
      · intro h
        have hnone : update_database s1 rs = none := by
          cases hu : update_database s1 rs with
          | none => rfl
          | some q => rw [hu] at h; cases h
        obtain ⟨r2, hr2, hab2⟩ := (ih s1).mp hnone
        exact ⟨r2, List.mem_cons_of_mem r hr2, hab2⟩
      · rintro ⟨r2, hr2, hab2⟩
        rcases List.mem_cons.mp hr2 with rfl | hr2
        · rw [habort] at hab2; cases hab2
        · rw [(ih s1).mpr ⟨r2, hr2, hab2⟩]
          rfl

theorem obsAt_of_findStation_none {s : List Station} {la lo : ℚ}
    (h : findStation s la lo = none) : obsAt s la lo = none := by
  rw [obsAt, h]; rfl

theorem obsAt_of_findStation_some {s : List Station} {la lo : ℚ} {st : Station}
    (h : findStation s la lo = some st) :
    obsAt s la lo = some (st.fuel_price, st.price_date, st.address) := by
  rw [obsAt, h]; rfl

theorem obsAt_append_new {s : List Station} {la lo : ℚ} {x : Station}
    (hf : findStation s la lo = none) (h1 : x.latitude = la) (h2 : x.longitude = lo) :
    obsAt (s ++ [x]) la lo = some (x.fuel_price, x.price_date, x.address) := by
  rw [obsAt, findStation_append_none _ hf, findStation_singleton, if_pos ⟨h1, h2⟩]
  rfl

theorem obsAt_applyUpdate_found {s : List Station} {la lo : ℚ} {st : Station}
    (pr : ℚ) (dt : String) (hf : findStation s la lo = some st) :
    obsAt (applyUpdate st.id pr dt s) la lo = some (pr, dt, st.address) := by
  rw [obsAt, findStation_applyUpdate, hf]
  simp

/-- One iteration's event class, and its effect at the record's own key,
are functions of the record and of the content stored at that key. -/
theorem processRecord_classify {s : List Station} {r : Record} {s1 : List Station}
    {ev : Ev} (h : processRecord s r = some (s1, ev)) :
    (ev.isAdded = classAdd (obsAt s (pyRound6 r.latitude) (pyRound6 r.longitude)) r) ∧
    (ev.isUpdated = classUpd (obsAt s (pyRound6 r.latitude) (pyRound6 r.longitude)) r) ∧
    (ev.isIgnored = classIgn (obsAt s (pyRound6 r.latitude) (pyRound6 r.longitude)) r) ∧
    (skips r = true → s1 = s) ∧
    (skips r = false →
      obsAt s1 (pyRound6 r.latitude) (pyRound6 r.longitude) =
        effObs (obsAt s (pyRound6 r.latitude) (pyRound6 r.longitude)) r) := by
  rcases processRecord_some_cases s r s1 ev h with ⟨hskt, rfl, rfl⟩ |
    ⟨pr, ad, dt, hp, h1, h2, had, hdt, hcase⟩
  · refine ⟨?_, ?_, ?_, fun _ => rfl, fun hsf => ?_⟩
    · simp [Ev.isAdded, classAdd, hskt]
    · simp [Ev.isUpdated, classUpd, hskt]
    · simp [Ev.isIgnored, classIgn, hskt]
    · simp [hskt] at hsf
  · have hsk : skips r = false := (skips_eq_false_iff r).mpr ⟨pr, hp, h1, h2⟩
    rcases hcase with ⟨hf, rfl, rfl⟩ | ⟨st, hf, hcase2⟩
    · have ho : obsAt s (pyRound6 r.latitude) (pyRound6 r.longitude) = none :=
        obsAt_of_findStation_none hf
      refine ⟨?_, ?_, ?_, fun hsf => ?_, fun hsf => ?_⟩
      · simp [Ev.isAdded, classAdd, hsk, ho]
      · simp [Ev.isUpdated, classUpd, hsk, ho]
      · simp [Ev.isIgnored, classIgn, hsk, ho, hdt]
      · simp [hsk] at hsf
      · rw [obsAt_append_new hf rfl rfl]
        simp [effObs, hp, had, hdt, ho]
    · have ho : obsAt s (pyRound6 r.latitude) (pyRound6 r.longitude) =
          some (st.fuel_price, st.price_date, st.address) :=
        obsAt_of_findStation_some hf
      rcases hcase2 with ⟨hle, rfl, rfl⟩ | ⟨hgt, rfl, rfl⟩
      · refine ⟨?_, ?_, ?_, fun hsf => ?_, fun hsf => ?_⟩
        · simp [Ev.isAdded, classAdd, hsk, ho]
        · simp [Ev.isUpdated, classUpd, hsk, ho, hdt, hle]
        · simp [Ev.isIgnored, classIgn, hsk, ho, hdt, hle]
        · simp [hsk] at hsf
        · rw [ho]
          simp [effObs, hp, had, hdt, hle, ho]
      · refine ⟨?_, ?_, ?_, fun hsf => ?_, fun hsf => ?_⟩
        · simp [Ev.isAdded, classAdd, hsk, ho]
        · simp [Ev.isUpdated, classUpd, hsk, ho, hdt, hgt]
        · simp [Ev.isIgnored, classIgn, hsk, ho, hdt, hgt]
        · simp [hsk] at hsf
        · rw [obsAt_applyUpdate_found pr dt hf]
          simp [effObs, hp, had, hdt, hgt, ho]

theorem canonObs_congr {s1 s : List Station} (rs : List Record) (la lo : ℚ)
    (h : obsAt s1 la lo = obsAt s la lo) :
    canonObs s1 rs la lo = canonObs s rs la lo := by
  cases hfil : rs.filter (fun r => decide (recKey r = (la, lo)) && !skips r) with
  | nil => simp only [canonObs, hfil]; exact h
  | cons r0 t => simp only [canonObs, hfil]; rw [h]

theorem filter_key_cases (rs : List Record) (la lo : ℚ)
    (hnd : (rs.map recKey).Nodup) :
    rs.filter (fun r => decide (recKey r = (la, lo)) && !skips r) = [] ∨
    ∃ r0, rs.filter (fun r => decide (recKey r = (la, lo)) && !skips r) = [r0] := by
  cases hfil : rs.filter (fun r => decide (recKey r = (la, lo)) && !skips r) with
  | nil => exact Or.inl rfl
  | cons r0 t =>
    cases t with
    | nil => exact Or.inr ⟨r0, rfl⟩
    | cons r1 t2 =>
      exfalso
      have hsub : (r0 :: r1 :: t2).Sublist rs := by
        rw [← hfil]
        exact List.filter_sublist rs
      have hnd2 : ((r0 :: r1 :: t2).map recKey).Nodup :=
        List.Nodup.sublist (hsub.map recKey) hnd
      have h0 : r0 ∈ rs.filter (fun r => decide (recKey r = (la, lo)) && !skips r) := by
        rw [hfil]; exact List.mem_cons_self _ _
      have h1 : r1 ∈ rs.filter (fun r => decide (recKey r = (la, lo)) && !skips r) := by
        rw [hfil]; exact List.mem_cons_of_mem _ (List.mem_cons_self _ _)
      have hr0 : recKey r0 = (la, lo) := by
        have := List.of_mem_filter h0
        simp only [Bool.and_eq_true, decide_eq_true_eq] at this
        exact this.1
      have hr1 : recKey r1 = (la, lo) := by
        have := List.of_mem_filter h1
        simp only [Bool.and_eq_true, decide_eq_true_eq] at this
        exact this.1
      have : recKey r0 ∈ (r1 :: t2).map recKey := by
        rw [List.map_cons]
        rw [hr0, ← hr1]
        exact List.mem_cons_self _ _
      exact (List.nodup_cons.mp hnd2).1 this

theorem canonObs_perm {rs rs' : List Record} (s : List Station) (la lo : ℚ)
    (hnd : (rs.map recKey).Nodup) (hperm : rs.Perm rs') :
    canonObs s rs la lo = canonObs s rs' la lo := by
  have hpf := hperm.filter (fun r => decide (recKey r = (la, lo)) && !skips r)
  rcases filter_key_cases rs la lo hnd with hfil | ⟨r0, hfil⟩
  · rw [hfil] at hpf
    have hfil2 : rs'.filter (fun r => decide (recKey r = (la, lo)) && !skips r) = [] :=
      hpf.symm.eq_nil
    simp only [canonObs, hfil, hfil2]
  · rw [hfil] at hpf
    have hfil2 : rs'.filter (fun r => decide (recKey r = (la, lo)) && !skips r) = [r0] :=
      List.Perm.eq_singleton hpf.symm
    simp only [canonObs, hfil, hfil2]

/-- Characterisation of a successful run over records with pairwise
distinct keys: the counters count the per-record classifications against
the initial store, and the content stored at every pair is the canonical
batch effect — both independent of the arrival order. -/
theorem run_characterization {s : List Station} {rs : List Record} {s' : List Station}
    {evs : List Ev} (hwf : wfStore s) (hnd : (rs.map recKey).Nodup)
    (h : runEvents s rs = some (s', evs)) :
    evs.countP Ev.isAdded = rs.countP
      (fun r => classAdd (obsAt s (pyRound6 r.latitude) (pyRound6 r.longitude)) r) ∧
    evs.countP Ev.isUpdated = rs.countP
      (fun r => classUpd (obsAt s (pyRound6 r.latitude) (pyRound6 r.longitude)) r) ∧
    evs.countP Ev.isIgnored = rs.countP
      (fun r => classIgn (obsAt s (pyRound6 r.latitude) (pyRound6 r.longitude)) r) ∧
    ∀ la lo, obsAt s' la lo = canonObs s rs la lo := by
  induction rs generalizing s evs with
  | nil =>
    simp only [runEvents, Option.some.injEq, Prod.mk.injEq] at h
    obtain ⟨rfl, rfl⟩ := h
    refine ⟨rfl, rfl, rfl, fun la lo => ?_⟩
    simp [canonObs]
  | cons r rs ih =>
    cases hpr : processRecord s r with
    | none => rw [runEvents_cons_none rs hpr] at h; cases h
    | some p =>
      obtain ⟨s1, ev⟩ := p
      rw [runEvents_cons_some rs hpr] at h
      cases hrun : runEvents s1 rs with
      | none => rw [hrun] at h; cases h
      | some q =>
        rw [hrun] at h
        obtain ⟨s2, evs2⟩ := q
        simp only [Option.map_some', Option.some.injEq, Prod.mk.injEq] at h
        obtain ⟨rfl, rfl⟩ := h
        have hwf1 : wfStore s1 := wfStore_processRecord hwf hpr
        rw [List.map_cons, List.nodup_cons] at hnd
        obtain ⟨hk, hnd2⟩ := hnd
        obtain ⟨ihA, ihU, ihI, ihObs⟩ := ih hwf1 hnd2 hrun
        obtain ⟨hclA, hclU, hclI, hclSkip, hclEff⟩ := processRecord_classify hpr
        have hframe : ∀ r2 ∈ rs,
            obsAt s1 (pyRound6 r2.latitude) (pyRound6 r2.longitude) =
            obsAt s (pyRound6 r2.latitude) (pyRound6 r2.longitude) := by
          intro r2 hr2
          cases hskc : skips r with
          | true => rw [hclSkip hskc]
          | false =>
            have hne : (pyRound6 r2.latitude, pyRound6 r2.longitude) ≠ recKey r := by
              intro hc
              apply hk
              have : recKey r = recKey r2 := by rw [← hc]; rfl
              rw [this]
              exact List.mem_map_of_mem recKey hr2
            exact obsAt_processRecord_of_ne hwf hpr _ _ hne
        refine ⟨?_, ?_, ?_, ?_⟩
        · rw [List.countP_cons, List.countP_cons, ihA, hclA,
            List.countP_congr fun r2 hr2 => by rw [hframe r2 hr2]]
        · rw [List.countP_cons, List.countP_cons, ihU, hclU,
            List.countP_congr fun r2 hr2 => by rw [hframe r2 hr2]]
        · rw [List.countP_cons, List.countP_cons, ihI, hclI,
            List.countP_congr fun r2 hr2 => by rw [hframe r2 hr2]]
        · intro la lo
          by_cases hpredr : (decide (recKey r = (la, lo)) && !skips r) = true
          · have hkey : recKey r = (la, lo) ∧ skips r = false := by
              simpa using hpredr
            have hla : pyRound6 r.latitude = la := congrArg Prod.fst hkey.1
            have hlo : pyRound6 r.longitude = lo := congrArg Prod.snd hkey.1
            have hfil_rs : rs.filter
                (fun r2 => decide (recKey r2 = (la, lo)) && !skips r2) = [] := by
              rw [List.filter_eq_nil_iff]
              intro r2 hr2 hc
              simp only [Bool.and_eq_true, decide_eq_true_eq] at hc
              apply hk
              rw [hkey.1, ← hc.1]
              exact List.mem_map_of_mem recKey hr2
            have hfull : (r :: rs).filter
                (fun r2 => decide (recKey r2 = (la, lo)) && !skips r2) = [r] := by
              rw [List.filter_cons, if_pos hpredr, hfil_rs]
            have hcanon1 : canonObs s1 rs la lo = obsAt s1 la lo := by
              simp only [canonObs, hfil_rs]
            rw [ihObs la lo, hcanon1]
            have hobs1 : obsAt s1 la lo = effObs (obsAt s la lo) r := by
              rw [← hla, ← hlo]
              exact hclEff hkey.2
            rw [hobs1]
            simp only [canonObs, hfull]
          · have hfull : (r :: rs).filter
                (fun r2 => decide (recKey r2 = (la, lo)) && !skips r2) =
                rs.filter (fun r2 => decide (recKey r2 = (la, lo)) && !skips r2) := by
              rw [List.filter_cons, if_neg hpredr]
            have hstep : obsAt s1 la lo = obsAt s la lo := by
              cases hskc : skips r with
              | true => rw [hclSkip hskc]
              | false =>
                have hne : (la, lo) ≠ recKey r := by
                  intro hc
                  apply hpredr
                  simp [hc.symm, hskc]
                exact obsAt_processRecord_of_ne hwf hpr la lo hne
            have hcan : canonObs s (r :: rs) la lo = canonObs s rs la lo := by
              cases hfil2 : rs.filter
                  (fun r2 => decide (recKey r2 = (la, lo)) && !skips r2) with
              | nil => simp only [canonObs, hfull, hfil2]
              | cons r0 t => simp only [canonObs, hfull, hfil2]
            rw [ihObs la lo, hcan]
            exact canonObs_congr rs la lo hstep

/-- C6 amended: when the records of the batch have pairwise distinct
rounded coordinate pairs (and the store satisfies the schema
constraints), the outcome does not depend on the arrival order: both
orders abort together, and on success they report the same counters and
store the same price, date, and address at every coordinate pair. Row
order and the automatically assigned row ids may still differ, and — per
the counterexample — batches with repeated coordinate pairs are genuinely
order-dependent. -/
theorem order_insensitive_amended (s : List Station) (rs rs' : List Record)
    (hwf : wfStore s) (hnd : (rs.map recKey).Nodup) (hperm : rs.Perm rs') :
    (update_database s rs = none ↔ update_database s rs' = none) ∧
    ∀ s1 a u i s1' a' u' i',
      update_database s rs = some (s1, a, u, i) →
      update_database s rs' = some (s1', a', u', i') →
      (a = a' ∧ u = u' ∧ i = i') ∧ ∀ la lo, obsAt s1 la lo = obsAt s1' la lo := by
  constructor
  · rw [update_database_none_iff, update_database_none_iff]
    constructor
    · rintro ⟨r, hr, hab⟩
      exact ⟨r, hperm.mem_iff.mp hr, hab⟩
    · rintro ⟨r, hr, hab⟩
      exact ⟨r, hperm.mem_iff.mpr hr, hab⟩
  · intro s1 a u i s1' a' u' i' h h'
    have hnd' : (rs'.map recKey).Nodup := ((hperm.map recKey).nodup_iff).mp hnd
    obtain ⟨evs, hrun, ha, hu, hi⟩ := runEvents_of_update_database h
    obtain ⟨evs', hrun', ha', hu', hi'⟩ := runEvents_of_update_database h'
    obtain ⟨cA, cU, cI, cObs⟩ := run_characterization hwf hnd hrun
    obtain ⟨cA', cU', cI', cObs'⟩ := run_characterization hwf hnd' hrun'
    refine ⟨⟨?_, ?_, ?_⟩, ?_⟩
    · rw [ha, ha', cA, cA']
      exact hperm.countP_eq _
    · rw [hu, hu', cU, cU']
      exact hperm.countP_eq _
    · rw [hi, hi', cI, cI']
      exact hperm.countP_eq _
    · intro la lo
      rw [cObs la lo, cObs' la lo]
      exact canonObs_perm s la lo hnd hperm

theorem order_insensitive_amended_witness :
    wfStore ([] : List Station) ∧
    (([rec1, rec3] : List Record).map recKey).Nodup ∧
    ([rec1, rec3] : List Record).Perm [rec3, rec1] ∧
    update_database [] [rec1, rec3] = some ([st1, st3], 2, 0, 0) ∧
    update_database [] [rec3, rec1] = some ([st3a, st1c], 2, 0, 0) ∧
    ((2 = 2 ∧ 0 = 0 ∧ 0 = 0) ∧
      ∀ la lo, obsAt [st1, st3] la lo = obsAt [st3a, st1c] la lo) :=
  ⟨by decide, by decide, List.Perm.swap rec3 rec1 [], by decide, by decide,
    (order_insensitive_amended [] [rec1, rec3] [rec3, rec1] (by decide) (by decide)
      (List.Perm.swap rec3 rec1 [])).2 [st1, st3] 2 0 0 [st3a, st1c] 2 0 0
      (by decide) (by decide)⟩

/-! ## Sanity checks of the embedding -/

example : pyRound6 (mkRat 451 10) = mkRat 451 10 := by decide
example : pyRound6 (mkRat 4510000051 100000000) = mkRat 45100001 1000000 := by decide
example : parseDate "01/02/2024" = some (1, 2, 2024) := by decide
example : parseDate "31/02/2024" = none := by decide
example : parseDate "29/02/2024" = some (29, 2, 2024) := by decide
example : parseDate "1/2/0999" = some (1, 2, 999) := by decide
example : normDate "31/12/2025" = some "2025-12-31" := by decide
example : pyStrLe "2024-01-01" "2024-01-02" = true := by decide
example : pyStrLe "2024-01-02" "2024-01-01" = false := by decide
example : update_database [] [rec1] = some ([st1], 1, 0, 0) := by decide
